import Mathlib

/-!
Verification of the decentralized storage upload pipeline and the batched
generation/upload/mint orchestration of the weight-less repository.

The definitions below are a shallow embedding of the TypeScript source:

* `frontend/app/api/zg-storage/route.ts` (full SDK upload route)
* `frontend/app/api/upload-to-0g/route.ts` (simplified content-hash route)
* `frontend/lib/services/storageService.ts` (client upload service)
* `frontend/lib/services/contractService.ts` (mint submitter)
* `frontend/app/generate/page.tsx` (batch pipeline controller)

External primitives (SHA-256, base64 decoding, UTF-8 encoding, the SDK
Merkle-tree construction, JSON stringification) are modelled as abstract
function parameters: the theorems hold for every choice of primitive, which
is exactly the determinism/data-flow content of the claims.  Network calls
and chain interactions are modelled as oracle parameters, and each modelled
route/handler returns, besides its result, the list of broadcast
transactions, observable status transitions, or calls it performed.
-/

/-- Per-item status of a generation item, from the union type of
`NFTImage.status` in `generate/page.tsx`. -/
inductive Status where
  | pending
  | generating
  | completed
  | failed
  | uploading
  | minting
  | minted
deriving DecidableEq, Repr

/-- A generation item, from the `NFTImage` interface in `generate/page.tsx`.
Optional fields of the TypeScript interface become `Option`s. -/
structure NFTImage where
  id : Nat
  url : String
  prompt : String
  style : String
  title : Option String
  description : Option String
  imageHash : Option String
  metadataHash : Option String
  status : Status
  txHash : Option String
  tokenId : Option Nat
deriving DecidableEq, Repr

/-- The `setGeneratedImages(prev => prev.map(img => img.id === id ? f(img) : img))`
update pattern used throughout `generate/page.tsx`. -/
def updateById (st : List NFTImage) (id : Nat) (f : NFTImage → NFTImage) :
    List NFTImage :=
  st.map fun img => if img.id = id then f img else img

/-- The observable status transitions performed by one `updateById` call:
one `(old, new)` pair per state entry whose id matches. -/
def traceOf (st : List NFTImage) (id : Nat) (f : NFTImage → NFTImage) :
    List (Status × Status) :=
  st.filterMap fun img =>
    if img.id = id then some (img.status, (f img).status) else none

/-- Look an item up by id (first match, as a keyed read of the React state). -/
def findById (st : List NFTImage) (id : Nat) : Option NFTImage :=
  st.find? fun img => img.id = id

/-- The ids of a state, in order. -/
def idsOf (st : List NFTImage) : List Nat :=
  st.map fun img => img.id

/-- A request body value, as received by the API routes: either a string or a
JSON object.  An object is represented by its `JSON.stringify(data, null, 2)`
rendering, which is the only way the routes consume it. -/
inductive RouteData where
  | str (s : String)
  | obj (pretty : String)
deriving DecidableEq, Repr

/-- NFT metadata, from the `NFTMetadata` interface in `storageService.ts`;
attributes are (trait_type, value) pairs. -/
structure NFTMetadata where
  name : String
  description : String
  image : String
  attributes : List (String × String)
deriving DecidableEq, Repr

/-- Abstract environment primitives used by the routes: SHA-256, base64
decoding, UTF-8 encoding, and JSON stringification of metadata objects.
All theorems are quantified over these. -/
structure Prims where
  sha256 : List Nat → String
  b64decode : String → List Nat
  utf8 : String → List Nat
  stringify : NFTMetadata → String

/-- Split a character list at every occurrence of `c`, JavaScript
`String.prototype.split` style: the empty list yields one empty field and
separators at the ends yield empty fields. -/
def splitList (c : Char) : List Char → List (List Char)
  | [] => [[]]
  | x :: xs =>
      let r := splitList c xs
      if x = c then [] :: r
      else
        match r with
        | [] => [[x]]
        | y :: ys => (x :: y) :: ys

/-- JavaScript `s.split(c)` for a one-character separator. -/
def jsSplit (s : String) (c : Char) : List String :=
  (splitList c s.toList).map String.mk

/-- Image-branch decode of both API routes: `(data as string).split(',')`,
take `parts[1]`, base64-decode it.  `none` models a thrown exception
(no comma, or a non-string body). -/
def imageBuffer (p : Prims) (d : RouteData) : Option (List Nat) :=
  match d with
  | .str s =>
      match (jsSplit s ',')[1]? with
      | some b64 => some (p.b64decode b64)
      | none => none
  | .obj _ => none

/-- JSON-branch decode of both API routes:
`typeof data === 'string' ? data : JSON.stringify(data, null, 2)`, UTF-8. -/
def jsonBuffer (p : Prims) (d : RouteData) : List Nat :=
  match d with
  | .str s => p.utf8 s
  | .obj pretty => p.utf8 pretty

/-- The content buffer a route derives from `(data, type)`, combining the two
branches; `none` models a throw or an unsupported type. -/
def decodedBuffer (p : Prims) (d : RouteData) (ty : String) : Option (List Nat) :=
  if ty = "image" then imageBuffer p d
  else if ty = "json" then some (jsonBuffer p d)
  else none

/-- The `/:(.*?);/` content-type extraction of `upload-to-0g/route.ts`:
the (possibly empty) run of characters between the first colon and the
first following semicolon, if both exist. -/
def parseContentType (s : String) : Option String :=
  match s.toList.dropWhile (· ≠ ':') with
  | [] => none
  | _ :: rest =>
      if rest.dropWhile (· ≠ ';') = [] then none
      else some (String.mk (rest.takeWhile (· ≠ ';')))

/-- Default gateway of `upload-to-0g/route.ts`. -/
def STORAGE_GATEWAY_SIMPLE : String := "https://indexer-testnet.0g.ai"

/-- Response body of `upload-to-0g/route.ts`.  The route never sets the
`txHash` and `onChain` keys; they are modelled as always-`none` fields
because the client service reads them. -/
structure UploadBody where
  success : Bool
  hash : Option String
  gatewayUrl : Option String
  size : Option Nat
  contentType : Option String
  error : Option String
  txHash : Option String
  onChain : Option Bool
deriving DecidableEq, Repr

/-- The catch-all 500 body of `upload-to-0g/route.ts`. -/
def uploadCatchBody : UploadBody :=
  ⟨false, none, none, none, none, some "Failed to upload to 0G Storage", none, none⟩

/-- Success body of `upload-to-0g/route.ts`: the content hash is
`0x` + SHA-256 of the buffer, and the gateway URL is `<gateway>/<hash>`. -/
def uploadOkBody (p : Prims) (buf : List Nat) (contentType : String) :
    Nat × UploadBody :=
  let storageHash := "0x" ++ p.sha256 buf
  (200, ⟨true, some storageHash, some (STORAGE_GATEWAY_SIMPLE ++ "/" ++ storageHash),
    some buf.length, some contentType, none, none, none⟩)

/-- POST handler of `upload-to-0g/route.ts` (the simplified content-hash
path), returning (HTTP status, body). -/
def uploadTo0gPost (p : Prims) (data : Option RouteData) (ty : String) :
    Nat × UploadBody :=
  match data with
  | none => (400, ⟨false, none, none, none, none, some "No data provided", none, none⟩)
  | some d =>
      if ty = "image" then
        match d with
        | .obj _ => (500, uploadCatchBody)
        | .str s =>
            let parts := jsSplit s ','
            match parts[1]? with
            | none => (500, uploadCatchBody)
            | some b64 =>
                let contentType :=
                  match parseContentType (parts.headD "") with
                  | some m => if m = "" then "image/png" else m
                  | none => "image/png"
                uploadOkBody p (p.b64decode b64) contentType
      else if ty = "json" then
        uploadOkBody p (jsonBuffer p d) "application/json"
      else
        (400, ⟨false, none, none, none, none,
          some "Invalid data type. Use \x22image\x22 or \x22json\x22", none, none⟩)

/-- Default gateway of `storageService.ts` (the turbo indexer). -/
def STORAGE_GATEWAY_CLIENT : String := "https://indexer-storage-testnet-turbo.0g.ai"

/-- `getStorageUrl` of `storageService.ts`: the gateway retrieval URL
`<gateway>/file?root=<hash>`. -/
def getStorageUrl (hash : String) : String :=
  STORAGE_GATEWAY_CLIENT ++ "/file?root=" ++ hash

/-- Result of the client upload services (`StorageResult` in
`storageService.ts`). -/
structure StorageResult where
  hash : String
  success : Bool
  error : Option String
  gatewayUrl : Option String
  txHash : Option String
  onChain : Option Bool
deriving DecidableEq, Repr

/-- `createMetadata` of `storageService.ts`. -/
def createMetadata (name description imageHash style prompt resolution : String) :
    NFTMetadata :=
  ⟨name, description, getStorageUrl imageHash,
    [("Style", style), ("Resolution", resolution), ("Generator", "Gemini AI"),
      ("Prompt", prompt)]⟩

/-- `response.ok` of the fetch API: HTTP status in 200..299. -/
def respOk (status : Nat) : Bool := decide (200 ≤ status ∧ status < 300)

/-- `result.error || 'Upload failed'` in `storageService.ts`: JavaScript
falsy coalescing on the server-reported error. -/
def orUploadFailed (e : Option String) : String :=
  match e with
  | some s => if s = "" then "Upload failed" else s
  | none => "Upload failed"

/-- The shared response handling of `uploadImage` and `uploadMetadata` in
`storageService.ts`: a non-ok HTTP status or a server-reported failure is
thrown and caught, yielding a failed `StorageResult`; on success the hash
and the derived gateway retrieval URL are returned together with the
(absent) `txHash` and `onChain` keys of the route response. -/
def handleUploadResponse (resp : Nat × UploadBody) : StorageResult :=
  if respOk resp.1 && resp.2.success then
    let h := resp.2.hash.getD ""
    ⟨h, true, none, some (getStorageUrl h), resp.2.txHash, resp.2.onChain⟩
  else
    ⟨"", false, some (orUploadFailed resp.2.error), none, none, none⟩

/-- `uploadImage` of `storageService.ts`.  `net = some msg` models a fetch
rejection carrying the message `msg`; otherwise the request reaches the
`upload-to-0g` route.  The function is total: every failure mode is caught
and converted into a `StorageResult`. -/
def uploadImage (p : Prims) (net : Option String) (base64Image : String) :
    StorageResult :=
  match net with
  | some msg => ⟨"", false, some msg, none, none, none⟩
  | none => handleUploadResponse (uploadTo0gPost p (some (.str base64Image)) "image")

/-- `uploadMetadata` of `storageService.ts`; posts the stringified metadata
object with type json. -/
def uploadMetadata (p : Prims) (net : Option String) (metadata : NFTMetadata) :
    StorageResult :=
  match net with
  | some msg => ⟨"", false, some msg, none, none, none⟩
  | none =>
      handleUploadResponse (uploadTo0gPost p (some (.obj (p.stringify metadata))) "json")

/-- Turbo indexer RPC constant of `zg-storage/route.ts`. -/
def ZG_INDEXER_RPC : String := "https://indexer-storage-testnet-turbo.0g.ai"

/-- Sector size of `zg-storage/route.ts` line 148. -/
def sectorSize : Nat := 256

/-- `Math.ceil(Number(submissionData.length) / sectorSize)` of
`zg-storage/route.ts` line 149, as natural-number ceiling division. -/
def numSectors (len : Nat) : Nat := (len + sectorSize - 1) / sectorSize

/-- `pricePerSector * BigInt(numSectors) * BigInt(2)` of
`zg-storage/route.ts` line 150 (the 2x safety buffer). -/
def storageFee (pricePerSector len : Nat) : Nat :=
  pricePerSector * numSectors len * 2

/-- Environment of one invocation of the `zg-storage` route: configuration,
chain state read through the RPC, the SDK Merkle-root primitive, the
outcome of the storage-node replication step, and the per-call random
UUID used for the temp file name. -/
structure ZgEnv where
  hasKey : Bool
  balance : Nat
  pricePerSector : Nat
  merkleRoot : List Nat → String
  txHash : String
  replicationFails : Bool
  uuid : String

/-- The temp-file staging area (`tmpdir()/0g-uploads`), as a path-keyed
store. -/
def FileStore : Type := List (String × List Nat)

/-- `writeFile(tempFilePath, contentBuffer)`. -/
def writeFileStore (store : FileStore) (path : String) (content : List Nat) :
    FileStore :=
  (path, content) :: store

/-- `ZgFile.fromFilePath(tempFilePath)`: read the staged bytes back. -/
def readFileStore (store : FileStore) (path : String) : Option (List Nat) :=
  ((store : List (String × List Nat)).find? fun e => e.1 = path).map fun e => e.2

/-- JSON response of the `zg-storage` route.  The success payload of the
route has no `warning` key, so the field is modelled and never set. -/
structure ZgResponse where
  success : Bool
  status : Nat
  root : Option String
  txHash : Option String
  gatewayUrl : Option String
  warning : Option String
  error : Option String

/-- Outcome of one `zg-storage` POST: the JSON response, the values of the
flow-contract `submit` transactions the route attempted to broadcast, and
the `console.warn` lines it logged. -/
structure ZgOutcome where
  resp : ZgResponse
  broadcasts : List Nat
  logWarnings : List String

/-- Error response shapes of the `zg-storage` route. -/
def zgErrorOutcome (status : Nat) (msg : String) : ZgOutcome :=
  ⟨⟨false, status, none, none, none, none, some msg⟩, [], []⟩

/-- Steps of `zg-storage/route.ts` from the temp-file write onward:
balance probe (rejecting only a zero balance), SDK Merkle root over the
staged bytes, fee computation from the freshly queried price, the
flow-contract submit (broadcast first, then the chain accepts only if the
balance covers the fee), and the best-effort replication whose failure is
only logged. -/
def zgProceed (env : ZgEnv) (buf : List Nat) (fileName : String) : ZgOutcome :=
  let path := "0g-uploads/" ++ fileName
  let store := writeFileStore [] path buf
  if env.balance = 0 then
    zgErrorOutcome 500 "Storage wallet has no funds. Please fund it with 0G tokens."
  else
    match readFileStore store path with
    | none => zgErrorOutcome 500 "Upload failed"
    | some content =>
        let rootHash := env.merkleRoot content
        let fee := storageFee env.pricePerSector content.length
        if env.balance < fee then
          ⟨⟨false, 500, none, none, none, none, some "Upload failed"⟩, [fee], []⟩
        else
          let warns :=
            if env.replicationFails then
              ["[0G Storage] Data upload to nodes failed",
                "[0G Storage] On-chain registration succeeded, but file may not be retrievable via gateway"]
            else []
          ⟨⟨true, 200, some rootHash, some env.txHash,
              some (ZG_INDEXER_RPC ++ "/file?root=" ++ rootHash), none, none⟩,
            [fee], warns⟩

/-- POST handler of `zg-storage/route.ts` (the full SDK path). -/
def zgStoragePost (p : Prims) (env : ZgEnv) (data : Option RouteData)
    (ty : String) : ZgOutcome :=
  match data with
  | none => zgErrorOutcome 400 "No data provided"
  | some d =>
      if ¬ env.hasKey then
        zgErrorOutcome 500
          "Storage service not configured. Set ZG_STORAGE_PRIVATE_KEY env var."
      else if ty = "image" then
        match imageBuffer p d with
        | none => zgErrorOutcome 500 "Upload failed"
        | some buf => zgProceed env buf ("image-" ++ env.uuid ++ ".png")
      else if ty = "json" then
        zgProceed env (jsonBuffer p d) ("metadata-" ++ env.uuid ++ ".json")
      else
        zgErrorOutcome 400 "Invalid type"

/-- JavaScript `v || dflt` on an optional string: the default is taken when
the value is absent or empty (falsy). -/
def jsOrDefault (v : Option String) (dflt : String) : String :=
  match v with
  | some s => if s = "" then dflt else s
  | none => dflt

/-- A reference image as passed to the generation API:
mime type and base64 payload. -/
structure RefImage where
  mimeType : String
  data : String
deriving DecidableEq, Repr

/-- The regex match `^data:([^;]+);base64,(.+)$` used by `handleGenerate`
to turn a data URL into a reference image: a nonempty mime part without
semicolons, the literal `;base64,`, and a nonempty payload without
newlines. -/
def parseDataUri (s : String) : Option RefImage :=
  let l := s.toList
  if l.take 5 = ("data:").toList then
    let rest := l.drop 5
    let mime := rest.takeWhile (· ≠ ';')
    let rem := rest.dropWhile (· ≠ ';')
    let tag := (";base64,").toList
    if mime ≠ [] ∧ rem.take tag.length = tag then
      let payload := rem.drop tag.length
      if payload ≠ [] ∧ payload.all (· ≠ '\n') then
        some ⟨String.mk mime, String.mk payload⟩
      else none
    else none
  else none

/-- Body of a `/api/generate-image` response as read by `generateItem`. -/
structure GenResponse where
  success : Bool
  imageUrl : Option String
deriving DecidableEq, Repr

/-- Body of a `/api/generate-metadata` response as read by `generateItem`. -/
structure MetaResponse where
  title : Option String
  description : Option String
deriving DecidableEq, Repr

/-- The two parallel fetches of `generateItem`, as one oracle keyed by the
item index; `.error` models a rejected fetch (the catch path). -/
def GenOracle : Type :=
  Nat → Option RefImage → Except Unit (GenResponse × MetaResponse)

/-- `generateItem` of `generate/page.tsx`: mark the item `generating`, call
the generation APIs, then mark it `completed` or `failed` and record the
returned image URL; returns the new state, the status transitions, and the
returned URL (`none` on the catch path). -/
def generateItem (oracle : GenOracle) (idx id : Nat) (itemStyle : String)
    (ref : Option RefImage) (st : List NFTImage) :
    List NFTImage × List (Status × Status) × Option String :=
  let fG := fun img => { img with status := Status.generating }
  let st1 := updateById st id fG
  let tr1 := traceOf st id fG
  match oracle idx ref with
  | .error _ =>
      let fF := fun img => { img with status := Status.failed }
      (updateById st1 id fF, tr1 ++ traceOf st1 id fF, none)
  | .ok (resp, meta) =>
      let url := resp.imageUrl.getD ""
      let fD := fun img => { img with status := if resp.success then Status.completed else Status.failed, url := url, title := some (jsOrDefault meta.title (itemStyle ++ " Artifact")), description := some (jsOrDefault meta.description "AI-generated NFT") }
      (updateById st1 id fD, tr1 ++ traceOf st1 id fD, some url)

/-- The sequential generation loop of `handleGenerate`: after item 0
completes, its generated image (if a well-formed data URL) replaces the
reference for the remaining items.  Returns the final state, the status
transitions, and the list of generation calls as (index, reference) pairs. -/
def genLoop (oracle : GenOracle) (style : String) :
    List (Nat × Nat) → Option RefImage → List NFTImage →
    List NFTImage × List (Status × Status) × List (Nat × Option RefImage)
  | [], _, st => (st, [], [])
  | (i, id) :: rest, ref, st =>
      let r := generateItem oracle i id style ref st
      let ref' :=
        if i = 0 then
          match r.2.2 with
          | some url =>
              if url ≠ "" then
                match parseDataUri url with
                | some x => some x
                | none => ref
              else ref
          | none => ref
        else ref
      let rr := genLoop oracle style rest ref' r.1
      (rr.1, r.2.1 ++ rr.2.1, (i, ref) :: rr.2.2)

/-- Fresh placeholder item of `handleGenerate` (status `pending`). -/
def mkPlaceholder (id : Nat) (prompt style : String) : NFTImage :=
  ⟨id, "", prompt, style, none, none, none, none, Status.pending, none, none⟩

/-- `handleGenerate` of `generate/page.tsx`: parse the uploaded image as
the initial reference, initialize `count` placeholders (ids
`baseId + i` model the `Date.now()`-based ids), and run the sequential
generation loop.  An empty `uploadedImage` is rejected up front. -/
def handleGenerate (oracle : GenOracle) (uploadedImage : String) (count : Nat)
    (prompt style : String) (baseId : Nat) :
    List NFTImage × List (Status × Status) × List (Nat × Option RefImage) :=
  if uploadedImage = "" then ([], [], [])
  else
    let initialRef := parseDataUri uploadedImage
    let newItems := (List.range count).map fun i =>
      mkPlaceholder (baseId + i) (prompt ++ " - variation " ++ toString (i + 1)) style
    genLoop oracle style ((List.range count).map fun i => (i, baseId + i))
      initialRef newItems

/-- A log entry of a mint transaction receipt, as parsed by
`contractService.ts`: a per-item `NFTMinted` event, the batch summary
event, or an unrelated log. -/
inductive ChainLog where
  | nftMinted (tokenId : Nat)
  | batchMinted (tokenIds : List Nat)
  | other
deriving DecidableEq, Repr

/-- The receipt-log scan of `contractService.ts`: collect the token ids of
all `NFTMinted` events, in log order. -/
def extractTokenIds (logs : List ChainLog) : List Nat :=
  logs.filterMap fun l =>
    match l with
    | .nftMinted t => some t
    | _ => none

/-- Per-item data passed to the mint contract (`nftsToMint` in
`handleMint`). -/
structure MintInput where
  imageHash : String
  metadataHash : String
  style : String
  prompt : String
deriving DecidableEq, Repr

/-- An on-chain mint call: `.ok (txHash, receiptLogs)` on confirmation,
`.error` when the transaction fails or reverts. -/
def MintChain : Type := List MintInput → Except String (String × List ChainLog)

/-- `batchMintNFTs` of `contractService.ts`: one `batchMint` transaction;
on success the token ids are recovered from the receipt logs in event
order. -/
def batchMintNFTs (chain : MintChain) (nfts : List MintInput) :
    Except String (String × List Nat) :=
  match chain nfts with
  | .error e => .error e
  | .ok (tx, logs) => .ok (tx, extractTokenIds logs)

/-- `mintNFT` of `contractService.ts`: single mint; the token id is the
first `NFTMinted` event of the receipt, defaulting to 0. -/
def mintNFT (chainOne : MintInput → Except String (String × List ChainLog))
    (input : MintInput) : Except String (String × Nat) :=
  match chainOne input with
  | .error e => .error e
  | .ok (tx, logs) => .ok (tx, ((extractTokenIds logs).head?).getD 0)

/-- The `for (i = 0; i < n; i += SIZE) slice(i, i + SIZE)` batching used by
all three phases of `handleMint` (SIZE = 5). -/
def chunksOf : Nat → List α → List (List α)
  | _, [] => []
  | 0, _ :: _ => []
  | n + 1, x :: xs => (x :: xs.take n) :: chunksOf (n + 1) (xs.drop n)
termination_by _ l => l.length
decreasing_by simp [List.length_drop]; omega

/-- STEP 1 of `handleMint`, marking a batch as `uploading` before its
parallel upload. -/
def markUploading (batch : List NFTImage) (st : List NFTImage) :
    List NFTImage × List (Status × Status) :=
  match batch with
  | [] => (st, [])
  | nft :: rest =>
      let f := fun img => { img with status := Status.uploading }
      let r := markUploading rest (updateById st nft.id f)
      (r.1, traceOf st nft.id f ++ r.2)

/-- STEP 1 of `handleMint`, collecting the batch upload results: successes
accumulate `(nft, hash)` pairs, failures mark only that item `failed`. -/
def collectImages (results : List (NFTImage × StorageResult)) (st : List NFTImage) :
    List NFTImage × List (Status × Status) × List (NFTImage × String) :=
  match results with
  | [] => (st, [], [])
  | (nft, r) :: rest =>
      if r.success = true ∧ r.hash ≠ "" then
        let rr := collectImages rest st
        (rr.1, rr.2.1, (nft, r.hash) :: rr.2.2)
      else
        let f := fun img => { img with status := Status.failed }
        let rr := collectImages rest (updateById st nft.id f)
        (rr.1, traceOf st nft.id f ++ rr.2.1, rr.2.2)

/-- STEP 1 of `handleMint` over the chunked batches. -/
def step1 (imgUpload : String → StorageResult) :
    List (List NFTImage) → List NFTImage →
    List NFTImage × List (Status × Status) × List (NFTImage × String)
  | [], st => (st, [], [])
  | batch :: rest, st =>
      let m := markUploading batch st
      let results := batch.map fun nft => (nft, imgUpload nft.url)
      let c := collectImages results m.1
      let r := step1 imgUpload rest c.1
      (r.1, m.2 ++ c.2.1 ++ r.2.1, c.2.2 ++ r.2.2)

/-- An entry of `metadataUploadResults` in `handleMint`. -/
structure MetaEntry where
  nft : NFTImage
  imageHash : String
  metadataHash : String
deriving DecidableEq, Repr

/-- STEP 2 of `handleMint`, collecting the batch metadata-upload results:
successes store the hashes on the item and advance it to `minting`,
failures mark only that item `failed`. -/
def collectMetadata (results : List ((NFTImage × String) × StorageResult))
    (st : List NFTImage) :
    List NFTImage × List (Status × Status) × List MetaEntry :=
  match results with
  | [] => (st, [], [])
  | (e, r) :: rest =>
      if r.success = true ∧ r.hash ≠ "" then
        let f := fun img => { img with imageHash := some e.2, metadataHash := some r.hash, status := Status.minting }
        let rr := collectMetadata rest (updateById st e.1.id f)
        (rr.1, traceOf st e.1.id f ++ rr.2.1, ⟨e.1, e.2, r.hash⟩ :: rr.2.2)
      else
        let f := fun img => { img with status := Status.failed }
        let rr := collectMetadata rest (updateById st e.1.id f)
        (rr.1, traceOf st e.1.id f ++ rr.2.1, rr.2.2)

/-- The metadata object `handleMint` builds for an uploaded image: default
title and description for falsy fields, as in the source. -/
def metaFor (resolution : String) (e : NFTImage × String) : NFTMetadata :=
  createMetadata (jsOrDefault e.1.title "AI NFT")
    (jsOrDefault e.1.description "AI-generated NFT on 0G Chain")
    e.2 e.1.style e.1.prompt resolution

/-- STEP 2 of `handleMint` over the chunked batches, building each
metadata object with `createMetadata`. -/
def step2 (metaUpload : NFTMetadata → StorageResult) (resolution : String) :
    List (List (NFTImage × String)) → List NFTImage →
    List NFTImage × List (Status × Status) × List MetaEntry
  | [], st => (st, [], [])
  | batch :: rest, st =>
      let results := batch.map fun e => (e, metaUpload (metaFor resolution e))
      let c := collectMetadata results st
      let r := step2 metaUpload resolution rest c.1
      (r.1, c.2.1 ++ r.2.1, c.2.2 ++ r.2.2)

/-- The batch-mint call data built from a `MetaEntry` in `handleMint`. -/
def toMintInput (e : MetaEntry) : MintInput :=
  ⟨e.imageHash, e.metadataHash, e.nft.style, e.nft.prompt⟩

/-- Successful batch outcome of STEP 3: each item of the batch becomes
`minted` with the shared transaction hash and the token id at its batch
index. -/
def applyMintSuccess (txHash : String) (tokenIds : List Nat) :
    Nat → List MetaEntry → List NFTImage →
    List NFTImage × List (Status × Status)
  | _, [], st => (st, [])
  | batchIndex, e :: rest, st =>
      let f := fun img => { img with status := Status.minted, txHash := some txHash, tokenId := tokenIds.get? batchIndex }
      let r := applyMintSuccess txHash tokenIds (batchIndex + 1) rest
        (updateById st e.nft.id f)
      (r.1, traceOf st e.nft.id f ++ r.2)

/-- Failed batch outcome of STEP 3: every item of the batch becomes
`failed`. -/
def applyMintFailure : List MetaEntry → List NFTImage →
    List NFTImage × List (Status × Status)
  | [], st => (st, [])
  | e :: rest, st =>
      let f := fun img => { img with status := Status.failed }
      let r := applyMintFailure rest (updateById st e.nft.id f)
      (r.1, traceOf st e.nft.id f ++ r.2)

/-- STEP 3 of `handleMint` over the chunked mint batches: one `batchMint`
call per batch, failure isolated to the batch, later batches still
processed.  Also returns the list of batch-mint calls issued. -/
def mintPhaseGo (chain : MintChain) :
    List (List MetaEntry) → List NFTImage →
    List NFTImage × List (Status × Status) × List (List MintInput)
  | [], st => (st, [], [])
  | batch :: rest, st =>
      let inputs := batch.map toMintInput
      match batchMintNFTs chain inputs with
      | .ok (tx, tokenIds) =>
          let a := applyMintSuccess tx tokenIds 0 batch st
          let r := mintPhaseGo chain rest a.1
          (r.1, a.2 ++ r.2.1, inputs :: r.2.2)
      | .error _ =>
          let a := applyMintFailure batch st
          let r := mintPhaseGo chain rest a.1
          (r.1, a.2 ++ r.2.1, inputs :: r.2.2)

/-- The mint phase of `handleMint`: chunk the successfully-uploaded
entries into batches of 5 and run STEP 3. -/
def mintPhase (chain : MintChain) (entries : List MetaEntry)
    (st : List NFTImage) :
    List NFTImage × List (Status × Status) × List (List MintInput) :=
  mintPhaseGo chain (chunksOf 5 entries) st

/-- Oracles of one `handleMint` run: the client upload services and the
batch-mint chain call. -/
structure MintOracles where
  imgUpload : String → StorageResult
  metaUpload : NFTMetadata → StorageResult
  chain : MintChain

/-- `handleMint` of `generate/page.tsx`: filter the completed items, upload
images in awaited batches of 5, upload metadata in batches of 5, then
batch-mint in groups of 5.  Returns the final state, the observable status
transitions, and the batch-mint calls issued. -/
def handleMint (o : MintOracles) (resolution : String) (st : List NFTImage) :
    List NFTImage × List (Status × Status) × List (List MintInput) :=
  let completedNFTs := st.filter fun img => img.status = Status.completed
  if completedNFTs = [] then (st, [], [])
  else
    let s1 := step1 o.imgUpload (chunksOf 5 completedNFTs) st
    let s2 := step2 o.metaUpload resolution (chunksOf 5 s1.2.2) s1.1
    let s3 := mintPhaseGo o.chain (chunksOf 5 s2.2.2) s2.1
    (s3.1, s1.2.1 ++ s2.2.1 ++ s3.2.1, s3.2.2)

/-- `handleMintSingle` of `generate/page.tsx`: guard on status `completed`,
upload image and metadata, mint a single NFT; every failure is caught and
reverts the item back to `completed` so the user can retry.  Note the
source passes `(metadataResult.hash, imageResult.hash)` to `mintNFT`, in
that order. -/
def handleMintSingle (imgUpload : String → StorageResult)
    (metaUpload : NFTMetadata → StorageResult)
    (chainOne : MintInput → Except String (String × List ChainLog))
    (resolution : String) (nftId : Nat) (st : List NFTImage) :
    List NFTImage × List (Status × Status) :=
  match findById st nftId with
  | none => (st, [])
  | some nft =>
      if nft.status ≠ Status.completed then (st, [])
      else
        let fUp := fun img => { img with status := Status.uploading }
        let st1 := updateById st nftId fUp
        let tr1 := traceOf st nftId fUp
        let fC := fun img => { img with status := Status.completed }
        let imageResult := imgUpload nft.url
        if ¬ (imageResult.success = true ∧ imageResult.hash ≠ "") then
          (updateById st1 nftId fC, tr1 ++ traceOf st1 nftId fC)
        else
          let metadata := createMetadata (jsOrDefault nft.title "AI NFT")
            (jsOrDefault nft.description "AI-generated NFT on 0G Chain")
            imageResult.hash nft.style nft.prompt resolution
          let metadataResult := metaUpload metadata
          if ¬ (metadataResult.success = true ∧ metadataResult.hash ≠ "") then
            (updateById st1 nftId fC, tr1 ++ traceOf st1 nftId fC)
          else
            let fM := fun img => { img with imageHash := some imageResult.hash, metadataHash := some metadataResult.hash, status := Status.minting }
            let st2 := updateById st1 nftId fM
            let tr2 := traceOf st1 nftId fM
            match mintNFT chainOne
              ⟨metadataResult.hash, imageResult.hash, nft.style, nft.prompt⟩ with
            | .ok (tx, tokenId) =>
                let fD := fun img => { img with status := Status.minted, txHash := some tx, tokenId := some tokenId }
                (updateById st2 nftId fD, tr1 ++ tr2 ++ traceOf st2 nftId fD)
            | .error _ =>
                (updateById st2 nftId fC, tr1 ++ tr2 ++ traceOf st2 nftId fC)

/-- Position of each status on the forward chain
pending, generating, completed, uploading, minting, minted claimed by the
spec; the value for `failed` is irrelevant because all clauses mentioning
`failed` are stated separately. -/
def chainRank : Status → Nat
  | .pending => 0
  | .generating => 1
  | .completed => 2
  | .uploading => 3
  | .minting => 4
  | .minted => 5
  | .failed => 6

/-- The transition relation asserted by the claim: forward along the
chain, into `failed`, or the manual-retry transition failed to
completed. -/
def allowedClaim (a b : Status) : Bool :=
  b == Status.failed || (a == Status.failed && b == Status.completed) ||
    (!(a == Status.failed) && !(b == Status.failed) &&
      decide (chainRank a ≤ chainRank b))

/-- The amended transition relation: the claimed one plus the
single-mint error path, which reverts an `uploading` or `minting` item
back to `completed`. -/
def allowedAmended (a b : Status) : Bool :=
  allowedClaim a b ||
    ((a == Status.uploading || a == Status.minting) && b == Status.completed)


/-- Concrete primitives used by witnesses and counterexamples. -/
def concretePrims : Prims :=
  ⟨fun _ => "abc", fun _ => [0], fun s => s.toList.map Char.toNat,
    fun _ => "mjson"⟩

/-- A well-funded environment for the `zg-storage` route. -/
def zgEnvA : ZgEnv :=
  ⟨true, 1000000000, 100, fun _ => "0xROOT", "0xTX", false, "uuidA"⟩

/-- An environment whose signer balance (1) is positive but below any fee. -/
def zgEnvPoor : ZgEnv :=
  ⟨true, 1, 100, fun _ => "0xROOT", "0xTX", false, "uuidB"⟩

/-- An environment with a zero signer balance. -/
def zgEnvZero : ZgEnv :=
  ⟨true, 0, 100, fun _ => "0xROOT", "0xTX", false, "uuidC"⟩

/-- A well-funded environment whose storage-node replication fails. -/
def zgEnvRepFail : ZgEnv :=
  ⟨true, 1000000000, 100, fun _ => "0xROOT", "0xTX", true, "uuidD"⟩

/-- A concrete metadata object for witnesses. -/
def concreteMeta : NFTMetadata := ⟨"name", "desc", "img", []⟩

/-- A sample completed item for witnesses. -/
def sampleNFT (id : Nat) (url : String) : NFTImage :=
  ⟨id, url, "prompt", "style", some "T", some "D", none, none, Status.completed, none, none⟩

/-- A sample successfully-uploaded entry for witnesses. -/
def sampleEntry (id : Nat) (url : String) : MetaEntry :=
  ⟨sampleNFT id url, "ihash", "mhash"⟩

/-- A mint chain oracle that always confirms, emitting one NFTMinted event
per item. -/
def mintChainOk : MintChain :=
  fun inputs => .ok ("0xMINT", inputs.map fun _ => ChainLog.nftMinted 7)

/-- The status of the item with the given id in a state, if present. -/
def statusOf (st : List NFTImage) (id : Nat) : Option Status :=
  (findById st id).map fun img => img.status

/-- A concrete generation oracle that always succeeds with a fixed
generated data URL. -/
def genOracleC : GenOracle :=
  fun _ _ => .ok (⟨true, some "data:image/png;base64,GGG"⟩, ⟨none, none⟩)

/-- Concrete mint oracles for witnesses: the image upload fails exactly on
the url "u2", metadata uploads always succeed, and the chain always
confirms. -/
def mintOraclesW : MintOracles :=
  ⟨fun u => if u = "u2" then ⟨"", false, some "img fail", none, none, none⟩
      else ⟨"0xIMG", true, none, none, none, none⟩,
    fun _ => ⟨"0xMETA", true, none, none, none, none⟩,
    mintChainOk⟩

theorem idsOf_updateById (st : List NFTImage) (id : Nat) (f : NFTImage → NFTImage)
    (hf : ∀ img, (f img).id = img.id) : idsOf (updateById st id f) = idsOf st := by
  induction st with
  | nil => rfl
  | cons a l ih =>
      have hbid : (if a.id = id then f a else a).id = a.id := by
        by_cases h : a.id = id <;> simp [h, hf]
      show (if a.id = id then f a else a).id :: idsOf (updateById l id f) =
        a.id :: idsOf l
      rw [hbid, ih]

theorem findById_updateById (st : List NFTImage) (id id' : Nat)
    (f : NFTImage → NFTImage) (hf : ∀ img, (f img).id = img.id) :
    findById (updateById st id f) id' =
      (findById st id').map fun img => if img.id = id then f img else img := by
  induction st with
  | nil => rfl
  | cons a l ih =>
      have hbid : (if a.id = id then f a else a).id = a.id := by
        by_cases h : a.id = id <;> simp [h, hf]
      show List.find? (fun img => img.id = id') ((if a.id = id then f a else a) ::
          updateById l id f) =
        Option.map (fun img => if img.id = id then f img else img)
          (List.find? (fun img => img.id = id') (a :: l))
      by_cases h : a.id = id'
      · rw [List.find?_cons_of_pos _ (by simp only [hbid]; simp [h]),
          List.find?_cons_of_pos _ (by simp [h])]
        rfl
      · rw [List.find?_cons_of_neg _ (by simp only [hbid]; simp [h]),
          List.find?_cons_of_neg _ (by simp [h])]
        exact ih

theorem findById_updateById_ne (st : List NFTImage) (id id' : Nat)
    (f : NFTImage → NFTImage) (hf : ∀ img, (f img).id = img.id)
    (hne : id' ≠ id) :
    findById (updateById st id f) id' = findById st id' := by
  rw [findById_updateById st id id' f hf]
  cases hfind : findById st id' with
  | none => rfl
  | some img =>
      have hid : img.id = id' := by
        have := List.find?_some hfind
        simpa using this
      simp [hid, hne]

theorem mem_traceOf (st : List NFTImage) (id : Nat) (f : NFTImage → NFTImage)
    (p : Status × Status) (hp : p ∈ traceOf st id f) :
    ∃ img ∈ st, img.id = id ∧ p = (img.status, (f img).status) := by
  simp only [traceOf, List.mem_filterMap] at hp
  obtain ⟨img, hmem, heq⟩ := hp
  by_cases h : img.id = id
  · refine ⟨img, hmem, h, ?_⟩
    simp [h] at heq
    exact heq.symm
  · simp [h] at heq


theorem readFileStore_writeFileStore (path : String) (content : List Nat) :
    readFileStore (writeFileStore [] path content) path = some content := by
  simp [readFileStore, writeFileStore, List.find?]

theorem zgProceed_spec (env : ZgEnv) (buf : List Nat) (fn : String) :
    zgProceed env buf fn =
      if env.balance = 0 then
        zgErrorOutcome 500
          "Storage wallet has no funds. Please fund it with 0G tokens."
      else if env.balance < storageFee env.pricePerSector buf.length then
        ⟨⟨false, 500, none, none, none, none, some "Upload failed"⟩,
          [storageFee env.pricePerSector buf.length], []⟩
      else
        ⟨⟨true, 200, some (env.merkleRoot buf), some env.txHash,
            some (ZG_INDEXER_RPC ++ "/file?root=" ++ env.merkleRoot buf), none, none⟩,
          [storageFee env.pricePerSector buf.length],
          if env.replicationFails then
            ["[0G Storage] Data upload to nodes failed",
              "[0G Storage] On-chain registration succeeded, but file may not be retrievable via gateway"]
          else []⟩ := by
  simp only [zgProceed, readFileStore_writeFileStore]

theorem zgStoragePost_spec (p : Prims) (env : ZgEnv) (d : RouteData)
    (ty : String) (buf : List Nat) (hk : env.hasKey = true)
    (hbuf : decodedBuffer p d ty = some buf) :
    zgStoragePost p env (some d) ty =
      zgProceed env buf
        (if ty = "image" then "image-" ++ env.uuid ++ ".png"
          else "metadata-" ++ env.uuid ++ ".json") := by
  by_cases h1 : ty = "image"
  · have hbuf2 : imageBuffer p d = some buf := by
      simpa [decodedBuffer, h1] using hbuf
    simp [zgStoragePost, hk, h1, hbuf2]
  · by_cases h2 : ty = "json"
    · have hbuf2 : jsonBuffer p d = buf := by
        simpa [decodedBuffer, h1, h2] using hbuf
      simp [zgStoragePost, hk, h1, h2, hbuf2]
    · exfalso
      simp [decodedBuffer, h1, h2] at hbuf

theorem numSectors_eq_ceil (len : Nat) : numSectors len = ⌈(len : ℚ) / 256⌉₊ := by
  rcases Nat.eq_zero_or_pos len with h | h
  · subst h
    simp [numSectors, sectorSize]
  · have hn : numSectors len ≠ 0 := by
      unfold numSectors sectorSize
      omega
    refine ((Nat.ceil_eq_iff hn).mpr ?_).symm
    constructor
    · rw [lt_div_iff₀ (by norm_num : (0 : ℚ) < 256)]
      exact_mod_cast
        (by unfold numSectors sectorSize; omega :
          (numSectors len - 1) * 256 < len)
    · rw [div_le_iff₀ (by norm_num : (0 : ℚ) < 256)]
      exact_mod_cast
        (by unfold numSectors sectorSize; omega :
          len ≤ numSectors len * 256)

/-- C1: for every upload that reaches the chain, the fee attached to the
broadcast submit transaction is pricePerSector times the ceiling of
payloadLength over 256, times the safety factor 2, with the price read
from the environment of this very call; concretely a 10000-byte payload
at pricePerSector 100 gives 40 sectors and a total fee of 8000. -/
theorem zg_storage_fee_correct (p : Prims) (env : ZgEnv) (d : RouteData)
    (ty : String) (buf : List Nat) (hbuf : decodedBuffer p d ty = some buf) :
    (∀ v ∈ (zgStoragePost p env (some d) ty).broadcasts,
        v = env.pricePerSector * ⌈(buf.length : ℚ) / 256⌉₊ * 2) ∧
    numSectors 10000 = 40 ∧ storageFee 100 10000 = 8000 := by
  refine ⟨?_, by decide, by decide⟩
  intro v hv
  by_cases hk : env.hasKey = true
  · rw [zgStoragePost_spec p env d ty buf hk hbuf, zgProceed_spec] at hv
    rw [← numSectors_eq_ceil]
    by_cases h0 : env.balance = 0
    · simp [h0, zgErrorOutcome] at hv
    · by_cases hlt : env.balance < storageFee env.pricePerSector buf.length
      · simp only [if_neg h0, if_pos hlt] at hv
        simp at hv
        simpa [storageFee] using hv
      · simp only [if_neg h0, if_neg hlt] at hv
        simp at hv
        simpa [storageFee] using hv
  · unfold zgStoragePost at hv
    simp [hk, zgErrorOutcome] at hv

/-- Witness for C1 at a concrete payload and environment. -/
theorem zg_storage_fee_correct_witness :
    (∀ v ∈ (zgStoragePost concretePrims zgEnvA (some (.str "payload")) "json").broadcasts,
        v = zgEnvA.pricePerSector *
          ⌈(((concretePrims.utf8 "payload").length : ℚ)) / 256⌉₊ * 2) ∧
    numSectors 10000 = 40 ∧ storageFee 100 10000 = 8000 :=
  zg_storage_fee_correct concretePrims zgEnvA (.str "payload") "json"
    (concretePrims.utf8 "payload") rfl

/-- Counterexample to C2 as stated: with a signer balance of 1, below the
computed totalFee of 200, the route still attempts to broadcast the submit
transaction (one transaction sent), instead of failing with
InsufficientFunds before any broadcast. -/
theorem zg_storage_balance_counterexample :
    zgEnvPoor.balance <
      storageFee zgEnvPoor.pricePerSector (concretePrims.utf8 "payload").length ∧
    (zgStoragePost concretePrims zgEnvPoor (some (.str "payload")) "json").broadcasts =
      [200] ∧
    (zgStoragePost concretePrims zgEnvPoor (some (.str "payload")) "json").resp.success =
      false := by
  refine ⟨by decide, ?_, ?_⟩ <;>
    simp [zgStoragePost, zgProceed, decodedBuffer, jsonBuffer, concretePrims,
      zgEnvPoor, readFileStore, writeFileStore, storageFee, numSectors, sectorSize,
      List.find?]

/-- C2 (amended): the pre-broadcast check of the route rejects only a zero
balance: with balance 0 the upload fails with no transaction sent, while
any positive balance below the computed fee still attempts the on-chain
submit (one transaction broadcast) and the failure surfaces as a chain
rejection afterwards. -/
theorem zg_storage_balance_check (p : Prims) (env : ZgEnv) (d : RouteData)
    (ty : String) (buf : List Nat) (hk : env.hasKey = true)
    (hbuf : decodedBuffer p d ty = some buf) :
    (env.balance = 0 →
      (zgStoragePost p env (some d) ty).broadcasts = [] ∧
      (zgStoragePost p env (some d) ty).resp.success = false) ∧
    (0 < env.balance →
      env.balance < storageFee env.pricePerSector buf.length →
      (zgStoragePost p env (some d) ty).broadcasts =
        [storageFee env.pricePerSector buf.length] ∧
      (zgStoragePost p env (some d) ty).resp.success = false) := by
  rw [zgStoragePost_spec p env d ty buf hk hbuf, zgProceed_spec]
  constructor
  · intro h0
    simp [h0, zgErrorOutcome]
  · intro hpos hlt
    have h0 : ¬ env.balance = 0 := by omega
    simp [h0, hlt]

/-- Witness for the amended C2, exercising both the zero-balance branch and
the positive-but-insufficient branch. -/
theorem zg_storage_balance_check_witness :
    ((zgStoragePost concretePrims zgEnvZero (some (.str "payload")) "json").broadcasts = [] ∧
      (zgStoragePost concretePrims zgEnvZero (some (.str "payload")) "json").resp.success = false) ∧
    ((zgStoragePost concretePrims zgEnvPoor (some (.str "payload")) "json").broadcasts =
        [storageFee zgEnvPoor.pricePerSector (concretePrims.utf8 "payload").length] ∧
      (zgStoragePost concretePrims zgEnvPoor (some (.str "payload")) "json").resp.success = false) :=
  ⟨(zg_storage_balance_check concretePrims zgEnvZero (.str "payload") "json"
      (concretePrims.utf8 "payload") rfl rfl).1 rfl,
    (zg_storage_balance_check concretePrims zgEnvPoor (.str "payload") "json"
      (concretePrims.utf8 "payload") rfl rfl).2 (by decide) (by decide)⟩

/-- Counterexample to C3 as stated: with a well-funded signer and failing
replication, the route returns success with the root hash, but the
returned result carries no warning at all (the success payload has no
warning key); the failure is only reported in the server log. -/
theorem zg_storage_warning_counterexample :
    zgEnvRepFail.replicationFails = true ∧
    (zgStoragePost concretePrims zgEnvRepFail (some (.str "payload")) "json").resp.success = true ∧
    (zgStoragePost concretePrims zgEnvRepFail (some (.str "payload")) "json").resp.root =
      some "0xROOT" ∧
    (zgStoragePost concretePrims zgEnvRepFail (some (.str "payload")) "json").resp.warning =
      none ∧
    (zgStoragePost concretePrims zgEnvRepFail (some (.str "payload")) "json").logWarnings ≠
      [] := by
  refine ⟨rfl, ?_, ?_, ?_, ?_⟩ <;>
    simp [zgStoragePost, zgProceed, decodedBuffer, jsonBuffer, concretePrims,
      zgEnvRepFail, readFileStore, writeFileStore, storageFee, numSectors,
      sectorSize, List.find?]

/-- C3 (amended): when the on-chain submission succeeds, the route returns
success with the root hash regardless of the replication outcome, but the
returned result carries no warning (its warning field is always null); a
replication failure is reported only through server-side log warnings. -/
theorem zg_storage_replication_degraded (p : Prims) (env : ZgEnv)
    (d : RouteData) (ty : String) (buf : List Nat) (hk : env.hasKey = true)
    (hbuf : decodedBuffer p d ty = some buf) (hb0 : env.balance ≠ 0)
    (hbal : storageFee env.pricePerSector buf.length ≤ env.balance) :
    (zgStoragePost p env (some d) ty).resp.success = true ∧
    (zgStoragePost p env (some d) ty).resp.root = some (env.merkleRoot buf) ∧
    (zgStoragePost p env (some d) ty).resp.txHash = some env.txHash ∧
    (zgStoragePost p env (some d) ty).resp.warning = none ∧
    (env.replicationFails = true →
      (zgStoragePost p env (some d) ty).logWarnings ≠ []) := by
  rw [zgStoragePost_spec p env d ty buf hk hbuf, zgProceed_spec]
  have hlt : ¬ env.balance < storageFee env.pricePerSector buf.length := by
    omega
  simp [hb0, hlt]

/-- Witness for the amended C3 with failing replication. -/
theorem zg_storage_replication_degraded_witness :
    (zgStoragePost concretePrims zgEnvRepFail (some (.str "payload")) "json").resp.success = true ∧
    (zgStoragePost concretePrims zgEnvRepFail (some (.str "payload")) "json").resp.root =
      some (zgEnvRepFail.merkleRoot (concretePrims.utf8 "payload")) ∧
    (zgStoragePost concretePrims zgEnvRepFail (some (.str "payload")) "json").resp.txHash =
      some zgEnvRepFail.txHash ∧
    (zgStoragePost concretePrims zgEnvRepFail (some (.str "payload")) "json").resp.warning =
      none ∧
    (zgEnvRepFail.replicationFails = true →
      (zgStoragePost concretePrims zgEnvRepFail (some (.str "payload")) "json").logWarnings ≠ []) :=
  zg_storage_replication_degraded concretePrims zgEnvRepFail (.str "payload")
    "json" (concretePrims.utf8 "payload") rfl rfl (by decide) (by decide)

theorem string_0x_append_ne (s : String) : "0x" ++ s ≠ "" := by
  intro h
  have h2 := congrArg String.length h
  rw [String.length_append] at h2
  have hx : ("0x" : String).length = 2 := rfl
  have h0 : ("" : String).length = 0 := rfl
  rw [hx, h0] at h2
  omega

theorem orUploadFailed_ne (e : Option String) : orUploadFailed e ≠ "" := by
  have hUF : ("Upload failed" : String) ≠ "" := by decide
  cases e with
  | none => exact hUF
  | some s =>
      by_cases hs : s = ""
      · simpa [orUploadFailed, hs] using hUF
      · simpa [orUploadFailed, hs] using hs

theorem uploadTo0gPost_success (p : Prims) (data : Option RouteData) (ty : String)
    (hs : (uploadTo0gPost p data ty).2.success = true) :
    ∃ buf ct, uploadTo0gPost p data ty = uploadOkBody p buf ct := by
  cases data with
  | none => simp [uploadTo0gPost] at hs
  | some d =>
      by_cases h1 : ty = "image"
      · cases d with
        | obj s => simp [uploadTo0gPost, h1, uploadCatchBody] at hs
        | str s =>
            cases hsp : (jsSplit s ',')[1]? with
            | none => simp [uploadTo0gPost, h1, hsp, uploadCatchBody] at hs
            | some b64 =>
                refine ⟨p.b64decode b64,
                  (match parseContentType ((jsSplit s ',').headD "") with
                    | some m => if m = "" then "image/png" else m
                    | none => "image/png"), ?_⟩
                simp [uploadTo0gPost, h1, hsp]
      · by_cases h2 : ty = "json"
        · exact ⟨jsonBuffer p d, "application/json",
            by simp [uploadTo0gPost, h1, h2]⟩
        · simp [uploadTo0gPost, h1, h2] at hs

theorem uploadTo0gPost_success_fields (p : Prims) (data : Option RouteData)
    (ty : String) (hs : (uploadTo0gPost p data ty).2.success = true) :
    (uploadTo0gPost p data ty).1 = 200 ∧
    (∃ b, (uploadTo0gPost p data ty).2.hash = some ("0x" ++ b)) ∧
    (uploadTo0gPost p data ty).2.txHash = none ∧
    (uploadTo0gPost p data ty).2.onChain = none := by
  obtain ⟨buf, ct, heq⟩ := uploadTo0gPost_success p data ty hs
  rw [heq]
  exact ⟨rfl, ⟨p.sha256 buf, rfl⟩, rfl, rfl⟩

theorem uploadTo0gPost_hash_of_buf (p : Prims) (d : RouteData) (ty : String)
    (buf : List Nat) (hbuf : decodedBuffer p d ty = some buf) :
    (uploadTo0gPost p (some d) ty).2.hash = some ("0x" ++ p.sha256 buf) ∧
    (uploadTo0gPost p (some d) ty).2.success = true := by
  by_cases h1 : ty = "image"
  · have hb : imageBuffer p d = some buf := by
      simpa [decodedBuffer, h1] using hbuf
    cases d with
    | obj s => simp [imageBuffer] at hb
    | str s =>
        cases hsp : (jsSplit s ',')[1]? with
        | none => simp [imageBuffer, hsp] at hb
        | some b64 =>
            have hb2 : p.b64decode b64 = buf := by
              simpa [imageBuffer, hsp] using hb
            constructor <;> simp [uploadTo0gPost, h1, hsp, uploadOkBody, hb2]
  · by_cases h2 : ty = "json"
    · have hb : jsonBuffer p d = buf := by
        simpa [decodedBuffer, h1, h2] using hbuf
      constructor <;> simp [uploadTo0gPost, h1, h2, uploadOkBody, hb]
    · exfalso
      simp [decodedBuffer, h1, h2] at hbuf

theorem handleUploadResponse_cases (resp : Nat × UploadBody) :
    (respOk resp.1 && resp.2.success) = true ∧
      handleUploadResponse resp =
        ⟨resp.2.hash.getD "", true, none,
          some (getStorageUrl (resp.2.hash.getD "")), resp.2.txHash, resp.2.onChain⟩ ∨
    handleUploadResponse resp =
      ⟨"", false, some (orUploadFailed resp.2.error), none, none, none⟩ := by
  by_cases hc : (respOk resp.1 && resp.2.success) = true
  · exact Or.inl ⟨hc, by simp [handleUploadResponse, hc]⟩
  · exact Or.inr (by simp [handleUploadResponse, hc])

/-- C9: the commit operation is deterministic on both paths.  The
content-hash path depends only on the derived payload bytes: two calls
whose request bodies decode to the same nonempty byte buffer yield the
same hash, namely 0x followed by the SHA-256 of the buffer.  The SDK path
likewise returns exactly the Merkle root of the staged payload bytes, so
two calls with identical bytes agree even across different random temp
file names. -/
theorem commit_deterministic (p : Prims) (d1 d2 : RouteData) (t1 t2 : String)
    (buf : List Nat) (h1 : decodedBuffer p d1 t1 = some buf)
    (h2 : decodedBuffer p d2 t2 = some buf) (hne : buf ≠ [])
    (env : ZgEnv) (u1 u2 : String) (hk : env.hasKey = true)
    (hb0 : env.balance ≠ 0)
    (hbal : storageFee env.pricePerSector buf.length ≤ env.balance) :
    (uploadTo0gPost p (some d1) t1).2.hash = (uploadTo0gPost p (some d2) t2).2.hash ∧
    (uploadTo0gPost p (some d1) t1).2.hash = some ("0x" ++ p.sha256 buf) ∧
    (zgStoragePost p { env with uuid := u1 } (some d1) t1).resp.root =
      (zgStoragePost p { env with uuid := u2 } (some d2) t2).resp.root ∧
    (zgStoragePost p { env with uuid := u1 } (some d1) t1).resp.root =
      some (env.merkleRoot buf) := by
  have ha := (uploadTo0gPost_hash_of_buf p d1 t1 buf h1).1
  have hb := (uploadTo0gPost_hash_of_buf p d2 t2 buf h2).1
  have e1 : (zgStoragePost p { env with uuid := u1 } (some d1) t1).resp.root =
      some (env.merkleRoot buf) := by
    rw [zgStoragePost_spec p { env with uuid := u1 } d1 t1 buf hk h1,
      zgProceed_spec]
    have hlt : ¬ env.balance < storageFee env.pricePerSector buf.length := by
      omega
    simp [hb0, hlt]
  have e2 : (zgStoragePost p { env with uuid := u2 } (some d2) t2).resp.root =
      some (env.merkleRoot buf) := by
    rw [zgStoragePost_spec p { env with uuid := u2 } d2 t2 buf hk h2,
      zgProceed_spec]
    have hlt : ¬ env.balance < storageFee env.pricePerSector buf.length := by
      omega
    simp [hb0, hlt]
  refine ⟨?_, ha, ?_, e1⟩
  · rw [ha, hb]
  · rw [e1, e2]

/-- Witness for C9: the same bytes reach the json branch once as a raw
string and once as a stringified object, under two different temp-file
UUIDs. -/
theorem commit_deterministic_witness :
    (uploadTo0gPost concretePrims (some (.str "x")) "json").2.hash =
      (uploadTo0gPost concretePrims (some (.obj "x")) "json").2.hash ∧
    (uploadTo0gPost concretePrims (some (.str "x")) "json").2.hash =
      some ("0x" ++ concretePrims.sha256 (concretePrims.utf8 "x")) ∧
    (zgStoragePost concretePrims { zgEnvA with uuid := "u1" } (some (.str "x")) "json").resp.root =
      (zgStoragePost concretePrims { zgEnvA with uuid := "u2" } (some (.obj "x")) "json").resp.root ∧
    (zgStoragePost concretePrims { zgEnvA with uuid := "u1" } (some (.str "x")) "json").resp.root =
      some (zgEnvA.merkleRoot (concretePrims.utf8 "x")) :=
  commit_deterministic concretePrims (.str "x") (.obj "x") "json" "json"
    (concretePrims.utf8 "x") rfl rfl (by decide) zgEnvA "u1" "u2" rfl
    (by decide) (by decide)

/-- Counterexample to C7 as stated: a successful simplified-path upload
result carries no marker of its originating path (the onChain and txHash
fields are absent), yet its content hash is wrapped in the storage-gateway
retrieval URL pattern, presenting it as a retrievable storage reference. -/
theorem simplified_path_counterexample :
    uploadImage concretePrims none "data:image/png;base64,AAAA" =
      ⟨"0xabc", true, none, some (getStorageUrl "0xabc"), none, none⟩ ∧
    getStorageUrl "0xabc" =
      "https://indexer-storage-testnet-turbo.0g.ai/file?root=0xabc" := by
  constructor
  · rfl
  · rfl

/-- C7 (amended): upload results of the client service are not marked with
their originating path.  Every successful result of `uploadImage` or
`uploadMetadata` (which only ever reach the simplified content-hash route)
has absent onChain and txHash markers and presents its hash through the
gateway retrieval URL `<gateway>/file?root=<hash>`. -/
theorem simplified_path_unmarked (p : Prims) (net : Option String)
    (b64 : String) (m : NFTMetadata) :
    ((uploadImage p net b64).success = true →
      (uploadImage p net b64).onChain = none ∧
      (uploadImage p net b64).txHash = none ∧
      (uploadImage p net b64).gatewayUrl =
        some (getStorageUrl (uploadImage p net b64).hash)) ∧
    ((uploadMetadata p net m).success = true →
      (uploadMetadata p net m).onChain = none ∧
      (uploadMetadata p net m).txHash = none ∧
      (uploadMetadata p net m).gatewayUrl =
        some (getStorageUrl (uploadMetadata p net m).hash)) := by
  cases net with
  | some msg =>
      constructor <;> · intro h; simp [uploadImage, uploadMetadata] at h
  | none =>
      constructor
      · intro h
        have hdef : uploadImage p none b64 =
            handleUploadResponse (uploadTo0gPost p (some (.str b64)) "image") := rfl
        rcases handleUploadResponse_cases
            (uploadTo0gPost p (some (.str b64)) "image") with ⟨hc, heq⟩ | heq
        · have hs := (Bool.and_eq_true _ _ |>.mp hc).2
          obtain ⟨_, _, ht, ho⟩ :=
            uploadTo0gPost_success_fields p (some (.str b64)) "image" hs
          rw [hdef, heq]
          exact ⟨ho, ht, rfl⟩
        · exfalso
          rw [hdef, heq] at h
          cases h
      · intro h
        have hdef : uploadMetadata p none m =
            handleUploadResponse
              (uploadTo0gPost p (some (.obj (p.stringify m))) "json") := rfl
        rcases handleUploadResponse_cases
            (uploadTo0gPost p (some (.obj (p.stringify m))) "json") with ⟨hc, heq⟩ | heq
        · have hs := (Bool.and_eq_true _ _ |>.mp hc).2
          obtain ⟨_, _, ht, ho⟩ :=
            uploadTo0gPost_success_fields p (some (.obj (p.stringify m))) "json" hs
          rw [hdef, heq]
          exact ⟨ho, ht, rfl⟩
        · exfalso
          rw [hdef, heq] at h
          cases h

/-- Witness for the amended C7 at a concrete successful upload. -/
theorem simplified_path_unmarked_witness :
    (uploadImage concretePrims none "data:image/png;base64,AAAA").onChain = none ∧
    (uploadImage concretePrims none "data:image/png;base64,AAAA").txHash = none ∧
    (uploadImage concretePrims none "data:image/png;base64,AAAA").gatewayUrl =
      some (getStorageUrl (uploadImage concretePrims none "data:image/png;base64,AAAA").hash) :=
  (simplified_path_unmarked concretePrims none "data:image/png;base64,AAAA"
    concreteMeta).1 rfl

theorem handleUploadResponse_total (resp : Nat × UploadBody)
    (hroute : resp.2.success = true → ∃ b, resp.2.hash = some ("0x" ++ b)) :
    ((handleUploadResponse resp).success = false →
      (handleUploadResponse resp).hash = "" ∧
      ∃ e, (handleUploadResponse resp).error = some e ∧ e ≠ "") ∧
    ((handleUploadResponse resp).success = true →
      (handleUploadResponse resp).hash ≠ "") := by
  rcases handleUploadResponse_cases resp with ⟨hc, heq⟩ | heq
  · rw [heq]
    constructor
    · intro h
      cases h
    · intro _
      have hs := (Bool.and_eq_true _ _ |>.mp hc).2
      obtain ⟨b, hb⟩ := hroute hs
      show resp.2.hash.getD "" ≠ ""
      rw [hb]
      exact string_0x_append_ne b
  · rw [heq]
    exact ⟨fun _ => ⟨rfl, orUploadFailed resp.2.error, rfl,
      orUploadFailed_ne resp.2.error⟩, fun h => by cases h⟩

/-- C10: the client upload services are total: they never throw.  For
every input, a fetch rejection (with its nonempty message), a non-ok HTTP
status, and a server-reported failure all produce a failed StorageResult
with an empty hash and a nonempty error string; every success carries a
nonempty hash.  This is what keeps the Promise.all fan-out of the batch
controller from rejecting. -/
theorem upload_services_total (p : Prims) (net : Option String) (b64 : String)
    (m : NFTMetadata) (hnet : ∀ msg, net = some msg → msg ≠ "") :
    ((uploadImage p net b64).success = false →
      (uploadImage p net b64).hash = "" ∧
      ∃ e, (uploadImage p net b64).error = some e ∧ e ≠ "") ∧
    ((uploadImage p net b64).success = true → (uploadImage p net b64).hash ≠ "") ∧
    ((uploadMetadata p net m).success = false →
      (uploadMetadata p net m).hash = "" ∧
      ∃ e, (uploadMetadata p net m).error = some e ∧ e ≠ "") ∧
    ((uploadMetadata p net m).success = true →
      (uploadMetadata p net m).hash ≠ "") := by
  cases net with
  | some msg =>
      have hmsg : msg ≠ "" := hnet msg rfl
      refine ⟨fun _ => ⟨rfl, msg, rfl, hmsg⟩, (fun h => by cases h),
        fun _ => ⟨rfl, msg, rfl, hmsg⟩, (fun h => by cases h)⟩
  | none =>
      have h1 := handleUploadResponse_total
        (uploadTo0gPost p (some (.str b64)) "image")
        (fun hs => (uploadTo0gPost_success_fields p (some (.str b64)) "image" hs).2.1)
      have h2 := handleUploadResponse_total
        (uploadTo0gPost p (some (.obj (p.stringify m))) "json")
        (fun hs =>
          (uploadTo0gPost_success_fields p (some (.obj (p.stringify m))) "json" hs).2.1)
      exact ⟨h1.1, h1.2, h2.1, h2.2⟩

/-- Witness for C10 at a concrete image upload and metadata upload. -/
theorem upload_services_total_witness :
    (((uploadImage concretePrims none "data:image/png;base64,AAAA").success = false →
      (uploadImage concretePrims none "data:image/png;base64,AAAA").hash = "" ∧
      ∃ e, (uploadImage concretePrims none "data:image/png;base64,AAAA").error = some e ∧ e ≠ "") ∧
    ((uploadImage concretePrims none "data:image/png;base64,AAAA").success = true →
      (uploadImage concretePrims none "data:image/png;base64,AAAA").hash ≠ "") ∧
    ((uploadMetadata concretePrims none concreteMeta).success = false →
      (uploadMetadata concretePrims none concreteMeta).hash = "" ∧
      ∃ e, (uploadMetadata concretePrims none concreteMeta).error = some e ∧ e ≠ "") ∧
    ((uploadMetadata concretePrims none concreteMeta).success = true →
      (uploadMetadata concretePrims none concreteMeta).hash ≠ "")) ∧
    (uploadImage concretePrims none "data:image/png;base64,AAAA").success = true :=
  ⟨upload_services_total concretePrims none "data:image/png;base64,AAAA"
    concreteMeta (fun _ h => by cases h), rfl⟩

theorem genLoop_calls_const (oracle : GenOracle) (style : String)
    (items : List (Nat × Nat)) (ref : Option RefImage) (st : List NFTImage)
    (h : ∀ q ∈ items, q.1 ≠ 0) :
    (genLoop oracle style items ref st).2.2 = items.map fun q => (q.1, ref) := by
  induction items generalizing st with
  | nil => rfl
  | cons q rest ih =>
      obtain ⟨i, id⟩ := q
      have hi : i ≠ 0 := h (i, id) (List.mem_cons_self _ _)
      simp only [genLoop, if_neg hi, List.map_cons]
      rw [ih _ fun q hq => h q (List.mem_cons_of_mem _ hq)]

/-- Counterexample to C5 as stated: item 1's generation call does receive a
reference image, namely the parsed user-uploaded image, not none. -/
theorem first_item_reference_counterexample :
    (handleGenerate genOracleC "data:image/png;base64,AAA" 3 "p" "s" 100).2.2.head? =
      some (0, some ⟨"image/png", "AAA"⟩) ∧
    some (⟨"image/png", "AAA"⟩ : RefImage) ≠ (none : Option RefImage) := by
  exact ⟨rfl, by simp⟩

/-- C5 (amended): the generation phase is sequential; the reference is
updated only after item 1, so every later item's call receives item 1's
generated output as reference (provided item 1's generation returned a
nonempty well-formed data URL), and item 1's own call receives the parsed
user-uploaded image as its reference, not none. -/
theorem sequential_reference_consistency (oracle : GenOracle)
    (uploadedImage : String) (count : Nat) (prompt style : String)
    (baseId : Nat) (u : RefImage) (hu : parseDataUri uploadedImage = some u)
    (hcount : 1 ≤ count) (resp : GenResponse) (meta : MetaResponse)
    (h0 : oracle 0 (some u) = .ok (resp, meta)) (g : String)
    (hg : resp.imageUrl = some g) (hgne : g ≠ "") (r0 : RefImage)
    (hr : parseDataUri g = some r0) :
    (handleGenerate oracle uploadedImage count prompt style baseId).2.2 =
      (0, some u) :: (List.range (count - 1)).map fun j => (j + 1, some r0) := by
  have hne : uploadedImage ≠ "" := by
    intro h
    have hemp : parseDataUri "" = none := rfl
    rw [h, hemp] at hu
    cases hu
  obtain ⟨n, rfl⟩ : ∃ n, count = n + 1 := ⟨count - 1, by omega⟩
  unfold handleGenerate
  rw [if_neg hne, hu, List.range_succ_eq_map]
  simp only [List.map_cons, List.map_map]
  have hgen : ∀ st, (generateItem oracle 0 (baseId + 0) style (some u) st).2.2 =
      some g := by
    intro st
    simp [generateItem, h0, hg]
  simp only [genLoop, if_pos rfl, hgen, hgne, hr]
  rw [genLoop_calls_const]
  · simp [hgne, Function.comp, Nat.succ_eq_add_one]
  · intro q hq
    obtain ⟨j, hj, rfl⟩ := List.mem_map.mp hq
    simp

/-- Witness for the amended C5 on a concrete 3-item batch. -/
theorem sequential_reference_consistency_witness :
    (handleGenerate genOracleC "data:image/png;base64,AAA" 3 "p" "s" 100).2.2 =
      (0, some ⟨"image/png", "AAA"⟩) ::
        (List.range 2).map fun j => (j + 1, some (⟨"image/png", "GGG"⟩ : RefImage)) :=
  sequential_reference_consistency genOracleC "data:image/png;base64,AAA" 3
    "p" "s" 100 ⟨"image/png", "AAA"⟩ rfl (by omega) ⟨true, some "data:image/png;base64,GGG"⟩
    ⟨none, none⟩ rfl "data:image/png;base64,GGG" rfl (by decide)
    ⟨"image/png", "GGG"⟩ rfl

theorem findById_mem (st : List NFTImage) (id : Nat) (img : NFTImage)
    (h : findById st id = some img) : img ∈ st ∧ img.id = id := by
  refine ⟨List.mem_of_find?_eq_some h, ?_⟩
  have := List.find?_some h
  simpa using this

theorem findById_of_mem (st : List NFTImage) (img : NFTImage)
    (hnd : (idsOf st).Nodup) (h : img ∈ st) : findById st img.id = some img := by
  induction st with
  | nil => cases h
  | cons a l ih =>
      rcases List.mem_cons.mp h with rfl | hl
      · simp [findById, List.find?_cons_of_pos]
      · have hne : a.id ≠ img.id := by
          intro he
          have : img.id ∈ idsOf l := List.mem_map_of_mem _ hl
          rw [idsOf, List.map_cons] at hnd
          exact (List.nodup_cons.mp hnd).1 (he ▸ this)
        have hnd2 : (idsOf l).Nodup := by
          rw [idsOf, List.map_cons] at hnd
          exact (List.nodup_cons.mp hnd).2
        show List.find? _ (a :: l) = _
        rw [List.find?_cons_of_neg _ (by simp [hne])]
        exact ih hnd2 hl

theorem traceOf_nil_of_not_mem (st : List NFTImage) (id : Nat)
    (f : NFTImage → NFTImage) (h : ∀ img ∈ st, img.id ≠ id) :
    traceOf st id f = [] := by
  rw [traceOf, List.filterMap_eq_nil_iff]
  intro img hmem
  simp [h img hmem]

theorem traceOf_nil_of_none (st : List NFTImage) (id : Nat)
    (f : NFTImage → NFTImage) (h : findById st id = none) :
    traceOf st id f = [] := by
  refine traceOf_nil_of_not_mem st id f fun img hmem => ?_
  rw [findById, List.find?_eq_none] at h
  simpa using h img hmem

theorem traceOf_single (st : List NFTImage) (id : Nat) (f : NFTImage → NFTImage)
    (img : NFTImage) (hnd : (idsOf st).Nodup) (h : findById st id = some img) :
    traceOf st id f = [(img.status, (f img).status)] := by
  induction st with
  | nil => cases h
  | cons a l ih =>
      by_cases ha : a.id = id
      · have haeq : a = img := by
          rw [findById] at h
          rw [List.find?_cons_of_pos _ (by simp [ha])] at h
          exact Option.some.inj h
        subst haeq
        have hrest : traceOf l id f = [] := by
          refine traceOf_nil_of_not_mem l id f fun b hb hbid => ?_
          rw [idsOf, List.map_cons] at hnd
          have hmem : b.id ∈ l.map fun img => img.id := List.mem_map_of_mem _ hb
          rw [hbid, ← ha] at hmem
          exact (List.nodup_cons.mp hnd).1 hmem
        rw [traceOf] at hrest ⊢
        rw [List.filterMap_cons, if_pos ha, hrest]
      · have hnd2 : (idsOf l).Nodup := by
          rw [idsOf, List.map_cons] at hnd
          exact (List.nodup_cons.mp hnd).2
        have h2 : findById l id = some img := by
          rw [findById] at h
          rw [List.find?_cons_of_neg _ (by simp [ha])] at h
          exact h
        have htail := ih hnd2 h2
        rw [traceOf] at htail ⊢
        rw [List.filterMap_cons, if_neg ha, htail]

theorem findById_updateById_self (st : List NFTImage) (id : Nat)
    (f : NFTImage → NFTImage) (hf : ∀ img, (f img).id = img.id) :
    findById (updateById st id f) id = (findById st id).map f := by
  rw [findById_updateById st id id f hf]
  cases hfind : findById st id with
  | none => rfl
  | some img =>
      have hid : img.id = id := (findById_mem st id img hfind).2
      simp [hid]

theorem nodup_updateById (st : List NFTImage) (id : Nat)
    (f : NFTImage → NFTImage) (hf : ∀ img, (f img).id = img.id)
    (hnd : (idsOf st).Nodup) : (idsOf (updateById st id f)).Nodup := by
  rw [idsOf_updateById st id f hf]
  exact hnd

theorem chunksOf_flatten (n : Nat) (l : List α) :
    (chunksOf (n + 1) l).flatten = l := by
  have H : ∀ (len : Nat) (l : List α), l.length ≤ len →
      (chunksOf (n + 1) l).flatten = l := by
    intro len
    induction len with
    | zero =>
        intro l hl
        have hnil : l = [] := List.eq_nil_of_length_eq_zero (by omega)
        subst hnil
        simp [chunksOf]
    | succ k ih =>
        intro l hl
        cases l with
        | nil => simp [chunksOf]
        | cons x xs =>
            rw [chunksOf, List.flatten_cons]
            have hlen : (xs.drop n).length ≤ k := by
              simp only [List.length_drop]
              simp only [List.length_cons] at hl
              omega
            rw [ih (xs.drop n) hlen]
            simp [List.take_append_drop]
  exact H l.length l le_rfl

theorem chunksOf_length_le (n : Nat) (l : List α) (c : List α)
    (hc : c ∈ chunksOf (n + 1) l) : c.length ≤ n + 1 := by
  have H : ∀ (len : Nat) (l : List α), l.length ≤ len →
      ∀ c ∈ chunksOf (n + 1) l, c.length ≤ n + 1 := by
    intro len
    induction len with
    | zero =>
        intro l hl c hc
        have hnil : l = [] := List.eq_nil_of_length_eq_zero (by omega)
        subst hnil
        simp [chunksOf] at hc
    | succ k ih =>
        intro l hl c hc
        cases l with
        | nil => simp [chunksOf] at hc
        | cons x xs =>
            rw [chunksOf] at hc
            rcases List.mem_cons.mp hc with rfl | hmem
            · simp only [List.length_cons, List.length_take]
              omega
            · have hlen : (xs.drop n).length ≤ k := by
                simp only [List.length_drop]
                simp only [List.length_cons] at hl
                omega
              exact ih (xs.drop n) hlen c hmem
  exact H l.length l le_rfl c hc

theorem applyMintSuccess_spec (tx : String) (tids : List Nat) :
    ∀ (batch : List MetaEntry) (k : Nat) (st : List NFTImage),
    (idsOf st).Nodup → ((batch.map fun e => e.nft.id).Nodup) →
    (∀ i (hi : i < batch.length),
        findById (applyMintSuccess tx tids k batch st).1 ((batch.get ⟨i, hi⟩).nft.id) =
          (findById st ((batch.get ⟨i, hi⟩).nft.id)).map
            fun img => { img with status := Status.minted, txHash := some tx, tokenId := tids.get? (k + i) }) ∧
    (∀ id, id ∉ batch.map (fun e => e.nft.id) →
        findById (applyMintSuccess tx tids k batch st).1 id = findById st id) ∧
    idsOf (applyMintSuccess tx tids k batch st).1 = idsOf st ∧
    (∀ pr ∈ (applyMintSuccess tx tids k batch st).2, pr.2 = Status.minted) := by
  intro batch
  induction batch with
  | nil =>
      intro k st hnd hbn
      refine ⟨?_, ?_, rfl, ?_⟩
      · intro i hi
        exact absurd hi (Nat.not_lt_zero i)
      · intro id _
        rfl
      · intro pr hpr
        exact absurd hpr (List.not_mem_nil pr)
  | cons e rest ih =>
      intro k st hnd hbn
      have hf : ∀ img : NFTImage,
          ((fun img => { img with status := Status.minted, txHash := some tx, tokenId := tids.get? k } : NFTImage → NFTImage) img).id = img.id :=
        fun _ => rfl
      have hbn2 : ((rest.map fun e => e.nft.id).Nodup) := by
        rw [List.map_cons] at hbn
        exact (List.nodup_cons.mp hbn).2
      have hnotin : e.nft.id ∉ rest.map fun e => e.nft.id := by
        rw [List.map_cons] at hbn
        exact (List.nodup_cons.mp hbn).1
      have hnd1 : (idsOf (updateById st e.nft.id _)).Nodup :=
        nodup_updateById st e.nft.id _ hf hnd
      obtain ⟨iha, ihb, ihc, ihd⟩ := ih (k + 1) (updateById st e.nft.id _) hnd1 hbn2
      refine ⟨?_, ?_, ?_, ?_⟩
      · intro i hi
        cases i with
        | zero =>
            simp only [applyMintSuccess, List.get, Nat.add_zero]
            rw [ihb e.nft.id hnotin]
            rw [findById_updateById_self st e.nft.id _ hf]
        | succ j =>
            have hj : j < rest.length := by
              simpa using hi
            have hne : (rest.get ⟨j, hj⟩).nft.id ≠ e.nft.id := by
              intro he
              exact hnotin (he ▸ List.mem_map_of_mem _ (rest.get_mem j hj))
            have harith : k + (j + 1) = k + 1 + j := by omega
            simp only [applyMintSuccess, List.get, harith]
            rw [iha j hj, findById_updateById_ne st e.nft.id _ _ hf hne]
      · intro id hid
        have hne : id ≠ e.nft.id := by
          intro he
          apply hid
          rw [List.map_cons, he]
          exact List.mem_cons_self _ _
        have hid2 : id ∉ rest.map fun e => e.nft.id := by
          intro hm
          apply hid
          rw [List.map_cons]
          exact List.mem_cons_of_mem _ hm
        simp only [applyMintSuccess]
        rw [ihb id hid2, findById_updateById_ne st e.nft.id _ _ hf hne]
      · simp only [applyMintSuccess]
        rw [ihc, idsOf_updateById st e.nft.id _ hf]
      · intro pr hpr
        simp only [applyMintSuccess, List.mem_append] at hpr
        rcases hpr with hl | hr
        · obtain ⟨img, _, _, heq⟩ := mem_traceOf st e.nft.id _ pr hl
          rw [heq]
        · exact ihd pr hr

theorem applyMintFailure_spec :
    ∀ (batch : List MetaEntry) (st : List NFTImage),
    (idsOf st).Nodup → ((batch.map fun e => e.nft.id).Nodup) →
    (∀ i (hi : i < batch.length),
        findById (applyMintFailure batch st).1 ((batch.get ⟨i, hi⟩).nft.id) =
          (findById st ((batch.get ⟨i, hi⟩).nft.id)).map
            fun img => { img with status := Status.failed }) ∧
    (∀ id, id ∉ batch.map (fun e => e.nft.id) →
        findById (applyMintFailure batch st).1 id = findById st id) ∧
    idsOf (applyMintFailure batch st).1 = idsOf st ∧
    (∀ pr ∈ (applyMintFailure batch st).2, pr.2 = Status.failed) := by
  intro batch
  induction batch with
  | nil =>
      intro st hnd hbn
      refine ⟨?_, ?_, rfl, ?_⟩
      · intro i hi
        exact absurd hi (Nat.not_lt_zero i)
      · intro id _
        rfl
      · intro pr hpr
        exact absurd hpr (List.not_mem_nil pr)
  | cons e rest ih =>
      intro st hnd hbn
      have hf : ∀ img : NFTImage,
          ((fun img => { img with status := Status.failed } : NFTImage → NFTImage) img).id = img.id :=
        fun _ => rfl
      have hbn2 : ((rest.map fun e => e.nft.id).Nodup) := by
        rw [List.map_cons] at hbn
        exact (List.nodup_cons.mp hbn).2
      have hnotin : e.nft.id ∉ rest.map fun e => e.nft.id := by
        rw [List.map_cons] at hbn
        exact (List.nodup_cons.mp hbn).1
      have hnd1 : (idsOf (updateById st e.nft.id _)).Nodup :=
        nodup_updateById st e.nft.id _ hf hnd
      obtain ⟨iha, ihb, ihc, ihd⟩ := ih (updateById st e.nft.id _) hnd1 hbn2
      refine ⟨?_, ?_, ?_, ?_⟩
      · intro i hi
        cases i with
        | zero =>
            simp only [applyMintFailure, List.get]
            rw [ihb e.nft.id hnotin]
            rw [findById_updateById_self st e.nft.id _ hf]
        | succ j =>
            have hj : j < rest.length := by
              simpa using hi
            have hne : (rest.get ⟨j, hj⟩).nft.id ≠ e.nft.id := by
              intro he
              exact hnotin (he ▸ List.mem_map_of_mem _ (rest.get_mem j hj))
            simp only [applyMintFailure, List.get]
            rw [iha j hj, findById_updateById_ne st e.nft.id _ _ hf hne]
      · intro id hid
        have hne : id ≠ e.nft.id := by
          intro he
          apply hid
          rw [List.map_cons, he]
          exact List.mem_cons_self _ _
        have hid2 : id ∉ rest.map fun e => e.nft.id := by
          intro hm
          apply hid
          rw [List.map_cons]
          exact List.mem_cons_of_mem _ hm
        simp only [applyMintFailure]
        rw [ihb id hid2, findById_updateById_ne st e.nft.id _ _ hf hne]
      · simp only [applyMintFailure]
        rw [ihc, idsOf_updateById st e.nft.id _ hf]
      · intro pr hpr
        simp only [applyMintFailure, List.mem_append] at hpr
        rcases hpr with hl | hr
        · obtain ⟨img, _, _, heq⟩ := mem_traceOf st e.nft.id _ pr hl
          rw [heq]
        · exact ihd pr hr

theorem mintPhaseGo_spec (chain : MintChain) :
    ∀ (chunks : List (List MetaEntry)) (st : List NFTImage),
    (idsOf st).Nodup →
    ((chunks.flatten.map fun e => e.nft.id).Nodup) →
    ((mintPhaseGo chain chunks st).2.2 = chunks.map fun c => c.map toMintInput) ∧
    (∀ c ∈ chunks,
      (∀ tx logs, chain (c.map toMintInput) = .ok (tx, logs) →
        ∀ i (hi : i < c.length),
          findById (mintPhaseGo chain chunks st).1 ((c.get ⟨i, hi⟩).nft.id) =
            (findById st ((c.get ⟨i, hi⟩).nft.id)).map
              fun img => { img with status := Status.minted, txHash := some tx, tokenId := (extractTokenIds logs).get? i }) ∧
      (∀ err, chain (c.map toMintInput) = .error err →
        ∀ i (hi : i < c.length),
          findById (mintPhaseGo chain chunks st).1 ((c.get ⟨i, hi⟩).nft.id) =
            (findById st ((c.get ⟨i, hi⟩).nft.id)).map
              fun img => { img with status := Status.failed })) ∧
    (∀ id, id ∉ chunks.flatten.map (fun e => e.nft.id) →
        findById (mintPhaseGo chain chunks st).1 id = findById st id) ∧
    idsOf (mintPhaseGo chain chunks st).1 = idsOf st ∧
    (∀ pr ∈ (mintPhaseGo chain chunks st).2.1,
        pr.2 = Status.minted ∨ pr.2 = Status.failed) := by
  intro chunks
  induction chunks with
  | nil =>
      intro st hnd hfl
      refine ⟨rfl, ?_, ?_, rfl, ?_⟩
      · intro c hc
        exact absurd hc (List.not_mem_nil c)
      · intro id _
        rfl
      · intro pr hpr
        exact absurd hpr (List.not_mem_nil pr)
  | cons c0 rest ih =>
      intro st hnd hfl
      rw [List.flatten_cons, List.map_append] at hfl
      have n1 : ((c0.map fun e => e.nft.id).Nodup) := (List.nodup_append.mp hfl).1
      have n2 : ((rest.flatten.map fun e => e.nft.id).Nodup) :=
        (List.nodup_append.mp hfl).2.1
      have hdisj : ∀ a ∈ c0.map fun e => e.nft.id,
          a ∉ rest.flatten.map fun e => e.nft.id :=
        fun a ha hb => (List.nodup_append.mp hfl).2.2 ha hb
      cases hch : chain (c0.map toMintInput) with
      | ok pair =>
          obtain ⟨tx, logs⟩ := pair
          obtain ⟨A1, A2, A3, A4⟩ :=
            applyMintSuccess_spec tx (extractTokenIds logs) c0 0 st hnd n1
          have hnd1 : (idsOf (applyMintSuccess tx (extractTokenIds logs) 0 c0 st).1).Nodup := by
            rw [A3]
            exact hnd
          obtain ⟨B1, B2, B3, B4, B5⟩ :=
            ih (applyMintSuccess tx (extractTokenIds logs) 0 c0 st).1 hnd1 n2
          have hstep : mintPhaseGo chain (c0 :: rest) st =
              (let a := applyMintSuccess tx (extractTokenIds logs) 0 c0 st
               let r := mintPhaseGo chain rest a.1
               (r.1, a.2 ++ r.2.1, (c0.map toMintInput) :: r.2.2)) := by
            simp only [mintPhaseGo, batchMintNFTs, hch]
          rw [hstep]
          refine ⟨?_, ?_, ?_, ?_, ?_⟩
          · show (c0.map toMintInput) :: _ = _
            rw [List.map_cons, B1]
          · intro c hc
            rcases List.mem_cons.mp hc with rfl | hcr
            · constructor
              · intro tx2 logs2 hch2 i hi
                have heq := hch.symm.trans hch2
                rw [Except.ok.injEq, Prod.mk.injEq] at heq
                obtain ⟨h1, h2⟩ := heq
                subst h1
                subst h2
                have hmemid : (c.get ⟨i, hi⟩).nft.id ∈ c.map fun e => e.nft.id :=
                  List.mem_map_of_mem _ (c.get_mem i hi)
                show findById (mintPhaseGo chain rest _).1 _ = _
                rw [B3 _ (fun hin => hdisj _ hmemid hin)]
                have := A1 i hi
                rw [this]
                simp only [Nat.zero_add]
              · intro err hch2 i hi
                rw [hch] at hch2
                cases hch2
            · have hchar := B2 c hcr
              have hpres : ∀ i (hi : i < c.length),
                  findById (applyMintSuccess tx (extractTokenIds logs) 0 c0 st).1
                      ((c.get ⟨i, hi⟩).nft.id) =
                    findById st ((c.get ⟨i, hi⟩).nft.id) := by
                intro i hi
                apply A2
                intro hin
                have hmemfl : (c.get ⟨i, hi⟩).nft.id ∈
                    rest.flatten.map fun e => e.nft.id :=
                  List.mem_map_of_mem _
                    (List.mem_flatten.mpr ⟨c, hcr, c.get_mem i hi⟩)
                exact hdisj _ hin hmemfl
              constructor
              · intro tx2 logs2 hch2 i hi
                show findById (mintPhaseGo chain rest _).1 _ = _
                rw [hchar.1 tx2 logs2 hch2 i hi, hpres i hi]
              · intro err hch2 i hi
                show findById (mintPhaseGo chain rest _).1 _ = _
                rw [hchar.2 err hch2 i hi, hpres i hi]
          · intro id hid
            rw [List.flatten_cons, List.map_append, List.mem_append] at hid
            push_neg at hid
            show findById (mintPhaseGo chain rest _).1 _ = _
            rw [B3 id hid.2, A2 id hid.1]
          · show idsOf (mintPhaseGo chain rest _).1 = _
            rw [B4, A3]
          · intro pr hpr
            rcases List.mem_append.mp hpr with hl | hr
            · exact Or.inl (A4 pr hl)
            · exact B5 pr hr
      | error err0 =>
          obtain ⟨A1, A2, A3, A4⟩ := applyMintFailure_spec c0 st hnd n1
          have hnd1 : (idsOf (applyMintFailure c0 st).1).Nodup := by
            rw [A3]
            exact hnd
          obtain ⟨B1, B2, B3, B4, B5⟩ := ih (applyMintFailure c0 st).1 hnd1 n2
          have hstep : mintPhaseGo chain (c0 :: rest) st =
              (let a := applyMintFailure c0 st
               let r := mintPhaseGo chain rest a.1
               (r.1, a.2 ++ r.2.1, (c0.map toMintInput) :: r.2.2)) := by
            simp only [mintPhaseGo, batchMintNFTs, hch]
          rw [hstep]
          refine ⟨?_, ?_, ?_, ?_, ?_⟩
          · show (c0.map toMintInput) :: _ = _
            rw [List.map_cons, B1]
          · intro c hc
            rcases List.mem_cons.mp hc with rfl | hcr
            · constructor
              · intro tx2 logs2 hch2 i hi
                rw [hch] at hch2
                cases hch2
              · intro err2 hch2 i hi
                have hmemid : (c.get ⟨i, hi⟩).nft.id ∈ c.map fun e => e.nft.id :=
                  List.mem_map_of_mem _ (c.get_mem i hi)
                show findById (mintPhaseGo chain rest _).1 _ = _
                rw [B3 _ (fun hin => hdisj _ hmemid hin)]
                exact A1 i hi
            · have hchar := B2 c hcr
              have hpres : ∀ i (hi : i < c.length),
                  findById (applyMintFailure c0 st).1 ((c.get ⟨i, hi⟩).nft.id) =
                    findById st ((c.get ⟨i, hi⟩).nft.id) := by
                intro i hi
                apply A2
                intro hin
                have hmemfl : (c.get ⟨i, hi⟩).nft.id ∈
                    rest.flatten.map fun e => e.nft.id :=
                  List.mem_map_of_mem _
                    (List.mem_flatten.mpr ⟨c, hcr, c.get_mem i hi⟩)
                exact hdisj _ hin hmemfl
              constructor
              · intro tx2 logs2 hch2 i hi
                show findById (mintPhaseGo chain rest _).1 _ = _
                rw [hchar.1 tx2 logs2 hch2 i hi, hpres i hi]
              · intro err hch2 i hi
                show findById (mintPhaseGo chain rest _).1 _ = _
                rw [hchar.2 err hch2 i hi, hpres i hi]
          · intro id hid
            rw [List.flatten_cons, List.map_append, List.mem_append] at hid
            push_neg at hid
            show findById (mintPhaseGo chain rest _).1 _ = _
            rw [B3 id hid.2, A2 id hid.1]
          · show idsOf (mintPhaseGo chain rest _).1 = _
            rw [B4, A3]
          · intro pr hpr
            rcases List.mem_append.mp hpr with hl | hr
            · exact Or.inr (A4 pr hl)
            · exact B5 pr hr

/-- C4: the mint phase chunks the successfully-uploaded entries into groups
of at most 5, issues exactly one batchMint call per group, and on a
confirmed batch assigns to the item at position i the i-th token id parsed
from the per-item NFTMinted events of that single receipt, marking all
items of the batch minted with the shared transaction hash; a failed batch
transaction marks exactly the items of that batch failed, while every
other batch is still processed according to its own transaction outcome,
and items outside the phase are untouched. -/
theorem mint_batch_semantics (chain : MintChain) (entries : List MetaEntry)
    (st : List NFTImage) (hnd : (idsOf st).Nodup)
    (hend : ((entries.map fun e => e.nft.id).Nodup)) :
    ((mintPhase chain entries st).2.2 =
      (chunksOf 5 entries).map fun c => c.map toMintInput) ∧
    (∀ c ∈ chunksOf 5 entries, c.length ≤ 5) ∧
    (∀ c ∈ chunksOf 5 entries,
      (∀ tx logs, chain (c.map toMintInput) = .ok (tx, logs) →
        ∀ i (hi : i < c.length),
          findById (mintPhase chain entries st).1 ((c.get ⟨i, hi⟩).nft.id) =
            (findById st ((c.get ⟨i, hi⟩).nft.id)).map
              fun img => { img with status := Status.minted, txHash := some tx, tokenId := (extractTokenIds logs).get? i }) ∧
      (∀ err, chain (c.map toMintInput) = .error err →
        ∀ i (hi : i < c.length),
          findById (mintPhase chain entries st).1 ((c.get ⟨i, hi⟩).nft.id) =
            (findById st ((c.get ⟨i, hi⟩).nft.id)).map
              fun img => { img with status := Status.failed })) ∧
    (∀ id, id ∉ entries.map (fun e => e.nft.id) →
        findById (mintPhase chain entries st).1 id = findById st id) := by
  have hfe : (chunksOf 5 entries).flatten = entries := chunksOf_flatten 4 entries
  have hfl : (((chunksOf 5 entries).flatten.map fun e => e.nft.id).Nodup) := by
    rw [hfe]
    exact hend
  obtain ⟨B1, B2, B3, B4, B5⟩ :=
    mintPhaseGo_spec chain (chunksOf 5 entries) st hnd hfl
  refine ⟨B1, ?_, B2, ?_⟩
  · intro c hc
    exact chunksOf_length_le 4 entries c hc
  · intro id hid
    apply B3
    rw [hfe]
    exact hid

/-- Witness for C4 on a concrete two-entry batch with a confirming chain. -/
theorem mint_batch_semantics_witness :
    ((mintPhase mintChainOk [sampleEntry 1 "u1", sampleEntry 2 "u2"]
        [sampleNFT 1 "u1", sampleNFT 2 "u2"]).2.2 =
      (chunksOf 5 [sampleEntry 1 "u1", sampleEntry 2 "u2"]).map
        fun c => c.map toMintInput) ∧
    (∀ c ∈ chunksOf 5 [sampleEntry 1 "u1", sampleEntry 2 "u2"], c.length ≤ 5) ∧
    (∀ c ∈ chunksOf 5 [sampleEntry 1 "u1", sampleEntry 2 "u2"],
      (∀ tx logs, mintChainOk (c.map toMintInput) = .ok (tx, logs) →
        ∀ i (hi : i < c.length),
          findById (mintPhase mintChainOk [sampleEntry 1 "u1", sampleEntry 2 "u2"]
              [sampleNFT 1 "u1", sampleNFT 2 "u2"]).1 ((c.get ⟨i, hi⟩).nft.id) =
            (findById [sampleNFT 1 "u1", sampleNFT 2 "u2"] ((c.get ⟨i, hi⟩).nft.id)).map
              fun img => { img with status := Status.minted, txHash := some tx, tokenId := (extractTokenIds logs).get? i }) ∧
      (∀ err, mintChainOk (c.map toMintInput) = .error err →
        ∀ i (hi : i < c.length),
          findById (mintPhase mintChainOk [sampleEntry 1 "u1", sampleEntry 2 "u2"]
              [sampleNFT 1 "u1", sampleNFT 2 "u2"]).1 ((c.get ⟨i, hi⟩).nft.id) =
            (findById [sampleNFT 1 "u1", sampleNFT 2 "u2"] ((c.get ⟨i, hi⟩).nft.id)).map
              fun img => { img with status := Status.failed })) ∧
    (∀ id, id ∉ [sampleEntry 1 "u1", sampleEntry 2 "u2"].map (fun e => e.nft.id) →
        findById (mintPhase mintChainOk [sampleEntry 1 "u1", sampleEntry 2 "u2"]
            [sampleNFT 1 "u1", sampleNFT 2 "u2"]).1 id =
          findById [sampleNFT 1 "u1", sampleNFT 2 "u2"] id) :=
  mint_batch_semantics mintChainOk [sampleEntry 1 "u1", sampleEntry 2 "u2"]
    [sampleNFT 1 "u1", sampleNFT 2 "u2"] (by decide) (by decide)

theorem markUploading_spec :
    ∀ (batch : List NFTImage) (st : List NFTImage),
    (idsOf st).Nodup → ((batch.map fun nft => nft.id).Nodup) →
    (∀ nft ∈ batch,
        findById (markUploading batch st).1 nft.id =
          (findById st nft.id).map fun img => { img with status := Status.uploading }) ∧
    (∀ id, id ∉ batch.map (fun nft => nft.id) →
        findById (markUploading batch st).1 id = findById st id) ∧
    idsOf (markUploading batch st).1 = idsOf st ∧
    (∀ pr ∈ (markUploading batch st).2, ∃ nft2 ∈ batch, ∃ img,
        findById st nft2.id = some img ∧ pr = (img.status, Status.uploading)) := by
  intro batch
  induction batch with
  | nil =>
      intro st hnd hbn
      exact ⟨fun nft h => absurd h (List.not_mem_nil nft), fun id _ => rfl, rfl,
        fun pr hpr => absurd hpr (List.not_mem_nil pr)⟩
  | cons nft rest ih =>
      intro st hnd hbn
      have hf : ∀ img : NFTImage,
          ((fun img => { img with status := Status.uploading } : NFTImage → NFTImage) img).id = img.id :=
        fun _ => rfl
      have hbn2 : ((rest.map fun nft => nft.id).Nodup) := by
        rw [List.map_cons] at hbn
        exact (List.nodup_cons.mp hbn).2
      have hnotin : nft.id ∉ rest.map fun nft => nft.id := by
        rw [List.map_cons] at hbn
        exact (List.nodup_cons.mp hbn).1
      have hnd1 : (idsOf (updateById st nft.id _)).Nodup :=
        nodup_updateById st nft.id _ hf hnd
      obtain ⟨iha, ihb, ihc, ihd⟩ := ih (updateById st nft.id _) hnd1 hbn2
      refine ⟨?_, ?_, ?_, ?_⟩
      · intro b hb
        rcases List.mem_cons.mp hb with rfl | hbr
        · simp only [markUploading]
          rw [ihb b.id hnotin, findById_updateById_self st b.id _ hf]
        · have hne : b.id ≠ nft.id := by
            intro he
            exact hnotin (he ▸ List.mem_map_of_mem _ hbr)
          simp only [markUploading]
          rw [iha b hbr, findById_updateById_ne st nft.id _ _ hf hne]
      · intro id hid
        have hne : id ≠ nft.id := by
          intro he
          apply hid
          rw [List.map_cons, he]
          exact List.mem_cons_self _ _
        have hid2 : id ∉ rest.map fun nft => nft.id := by
          intro hm
          apply hid
          rw [List.map_cons]
          exact List.mem_cons_of_mem _ hm
        simp only [markUploading]
        rw [ihb id hid2, findById_updateById_ne st nft.id _ _ hf hne]
      · simp only [markUploading]
        rw [ihc, idsOf_updateById st nft.id _ hf]
      · intro pr hpr
        simp only [markUploading, List.mem_append] at hpr
        rcases hpr with hl | hr
        · obtain ⟨img, hmem, hid, heq⟩ := mem_traceOf st nft.id _ pr hl
          refine ⟨nft, List.mem_cons_self _ _, img, ?_, heq⟩
          rw [← hid]
          exact findById_of_mem st img hnd hmem
        · obtain ⟨b, hbr, img, hfind, heq⟩ := ihd pr hr
          have hne : b.id ≠ nft.id := by
            intro he
            exact hnotin (he ▸ List.mem_map_of_mem _ hbr)
          refine ⟨b, List.mem_cons_of_mem _ hbr, img, ?_, heq⟩
          rw [← findById_updateById_ne st nft.id b.id _ hf hne]
          exact hfind

theorem collectImages_spec :
    ∀ (results : List (NFTImage × StorageResult)) (st : List NFTImage),
    (idsOf st).Nodup → ((results.map fun r => r.1.id).Nodup) →
    (∀ r ∈ results, r.2.success = true ∧ r.2.hash ≠ "" →
        findById (collectImages results st).1 r.1.id = findById st r.1.id) ∧
    (∀ r ∈ results, ¬ (r.2.success = true ∧ r.2.hash ≠ "") →
        findById (collectImages results st).1 r.1.id =
          (findById st r.1.id).map fun img => { img with status := Status.failed }) ∧
    (∀ id, id ∉ results.map (fun r => r.1.id) →
        findById (collectImages results st).1 id = findById st id) ∧
    idsOf (collectImages results st).1 = idsOf st ∧
    ((collectImages results st).2.2 = results.filterMap fun r =>
        if r.2.success = true ∧ r.2.hash ≠ "" then some (r.1, r.2.hash) else none) ∧
    (∀ pr ∈ (collectImages results st).2.1, pr.2 = Status.failed) := by
  intro results
  induction results with
  | nil =>
      intro st hnd hrn
      exact ⟨fun r h => absurd h (List.not_mem_nil r),
        fun r h => absurd h (List.not_mem_nil r), fun id _ => rfl, rfl, rfl,
        fun pr hpr => absurd hpr (List.not_mem_nil pr)⟩
  | cons r0 rest ih =>
      intro st hnd hrn
      have hf : ∀ img : NFTImage,
          ((fun img => { img with status := Status.failed } : NFTImage → NFTImage) img).id = img.id :=
        fun _ => rfl
      have hrn2 : ((rest.map fun r => r.1.id).Nodup) := by
        rw [List.map_cons] at hrn
        exact (List.nodup_cons.mp hrn).2
      have hnotin : r0.1.id ∉ rest.map fun r => r.1.id := by
        rw [List.map_cons] at hrn
        exact (List.nodup_cons.mp hrn).1
      obtain ⟨n0, res0⟩ := r0
      by_cases hok : res0.success = true ∧ res0.hash ≠ ""
      · obtain ⟨iha, ihb, ihc, ihd, ihe, ihf2⟩ := ih st hnd hrn2
        have hstep : collectImages ((n0, res0) :: rest) st =
            ((collectImages rest st).1, (collectImages rest st).2.1,
              (n0, res0.hash) :: (collectImages rest st).2.2) := by
          simp only [collectImages, if_pos hok]
        rw [hstep]
        refine ⟨?_, ?_, ?_, ihd, ?_, ihf2⟩
        · intro r hr hrok
          rcases List.mem_cons.mp hr with rfl | hrr
          · exact ihc n0.id hnotin
          · exact iha r hrr hrok
        · intro r hr hrbad
          rcases List.mem_cons.mp hr with rfl | hrr
          · exact absurd hok hrbad
          · exact ihb r hrr hrbad
        · intro id hid
          have hid2 : id ∉ rest.map fun r => r.1.id := by
            intro hm
            apply hid
            rw [List.map_cons]
            exact List.mem_cons_of_mem _ hm
          exact ihc id hid2
        · rw [List.filterMap_cons, if_pos hok, ihe]
      · have hnd1 : (idsOf (updateById st n0.id _)).Nodup :=
          nodup_updateById st n0.id _ hf hnd
        obtain ⟨iha, ihb, ihc, ihd, ihe, ihf2⟩ := ih (updateById st n0.id _) hnd1 hrn2
        have hstep : collectImages ((n0, res0) :: rest) st =
            ((collectImages rest (updateById st n0.id fun img => { img with status := Status.failed })).1,
              traceOf st n0.id (fun img => { img with status := Status.failed }) ++
                (collectImages rest (updateById st n0.id fun img => { img with status := Status.failed })).2.1,
              (collectImages rest (updateById st n0.id fun img => { img with status := Status.failed })).2.2) := by
          simp only [collectImages, if_neg hok]
        rw [hstep]
        refine ⟨?_, ?_, ?_, ?_, ?_, ?_⟩
        · intro r hr hrok
          rcases List.mem_cons.mp hr with rfl | hrr
          · exact absurd hrok hok
          · have hne : r.1.id ≠ n0.id := by
              intro he
              exact hnotin (he ▸ List.mem_map_of_mem _ hrr)
            rw [iha r hrr hrok, findById_updateById_ne st n0.id _ _ hf hne]
        · intro r hr hrbad
          rcases List.mem_cons.mp hr with rfl | hrr
          · rw [ihc n0.id hnotin, findById_updateById_self st n0.id _ hf]
          · have hne : r.1.id ≠ n0.id := by
              intro he
              exact hnotin (he ▸ List.mem_map_of_mem _ hrr)
            rw [ihb r hrr hrbad, findById_updateById_ne st n0.id _ _ hf hne]
        · intro id hid
          have hne : id ≠ n0.id := by
            intro he
            apply hid
            rw [List.map_cons, he]
            exact List.mem_cons_self _ _
          have hid2 : id ∉ rest.map fun r => r.1.id := by
            intro hm
            apply hid
            rw [List.map_cons]
            exact List.mem_cons_of_mem _ hm
          rw [ihc id hid2, findById_updateById_ne st n0.id _ _ hf hne]
        · rw [ihd, idsOf_updateById st n0.id _ hf]
        · rw [List.filterMap_cons, if_neg hok, ihe]
        · intro pr hpr
          rcases List.mem_append.mp hpr with hl | hr
          · obtain ⟨img, _, _, heq⟩ := mem_traceOf st n0.id _ pr hl
            rw [heq]
          · exact ihf2 pr hr

theorem option_map_uploading_failed (o : Option NFTImage) :
    ((o.map fun img => { img with status := Status.uploading }).map
      fun img => { img with status := Status.failed }) =
    o.map fun img => { img with status := Status.failed } := by
  cases o <;> rfl

theorem step1_spec (imgUpload : String → StorageResult) :
    ∀ (chunks : List (List NFTImage)) (st : List NFTImage),
    (idsOf st).Nodup → ((chunks.flatten.map fun nft => nft.id).Nodup) →
    (∀ nft ∈ chunks.flatten,
        ((imgUpload nft.url).success = true ∧ (imgUpload nft.url).hash ≠ "" →
          findById (step1 imgUpload chunks st).1 nft.id =
            (findById st nft.id).map fun img => { img with status := Status.uploading }) ∧
        (¬ ((imgUpload nft.url).success = true ∧ (imgUpload nft.url).hash ≠ "") →
          findById (step1 imgUpload chunks st).1 nft.id =
            (findById st nft.id).map fun img => { img with status := Status.failed })) ∧
    (∀ id, id ∉ chunks.flatten.map (fun nft => nft.id) →
        findById (step1 imgUpload chunks st).1 id = findById st id) ∧
    idsOf (step1 imgUpload chunks st).1 = idsOf st ∧
    ((step1 imgUpload chunks st).2.2 = chunks.flatten.filterMap fun nft =>
        if (imgUpload nft.url).success = true ∧ (imgUpload nft.url).hash ≠ ""
        then some (nft, (imgUpload nft.url).hash) else none) ∧
    (∀ pr ∈ (step1 imgUpload chunks st).2.1, pr.2 = Status.failed ∨
        ∃ nft2 ∈ chunks.flatten, ∃ img, findById st nft2.id = some img ∧
          pr = (img.status, Status.uploading)) := by
  intro chunks
  induction chunks with
  | nil =>
      intro st hnd hfl
      exact ⟨fun nft h => absurd h (List.not_mem_nil nft), fun id _ => rfl, rfl,
        rfl, fun pr hpr => absurd hpr (List.not_mem_nil pr)⟩
  | cons batch rest ih =>
      intro st hnd hfl
      rw [List.flatten_cons, List.map_append] at hfl
      have n1 : ((batch.map fun nft => nft.id).Nodup) := (List.nodup_append.mp hfl).1
      have n2 : ((rest.flatten.map fun nft => nft.id).Nodup) :=
        (List.nodup_append.mp hfl).2.1
      have hdisj : ∀ a ∈ batch.map fun nft => nft.id,
          a ∉ rest.flatten.map fun nft => nft.id :=
        fun a ha hb => (List.nodup_append.mp hfl).2.2 ha hb
      obtain ⟨M1, M2, M3, M4⟩ := markUploading_spec batch st hnd n1
      have hnd1 : (idsOf (markUploading batch st).1).Nodup := by
        rw [M3]
        exact hnd
      have hresn : (((batch.map fun nft => (nft, imgUpload nft.url)).map
          fun r => r.1.id).Nodup) := by
        rw [List.map_map]
        exact n1
      obtain ⟨C1, C2, C3, C4, C5, C6⟩ :=
        collectImages_spec (batch.map fun nft => (nft, imgUpload nft.url))
          (markUploading batch st).1 hnd1 hresn
      have hnd2 : (idsOf (collectImages (batch.map fun nft => (nft, imgUpload nft.url))
          (markUploading batch st).1).1).Nodup := by
        rw [C4, M3]
        exact hnd
      obtain ⟨B1, B2, B3, B4, B5⟩ :=
        ih (collectImages (batch.map fun nft => (nft, imgUpload nft.url))
          (markUploading batch st).1).1 hnd2 n2
      have hresid : ∀ id, (id ∈ (batch.map fun nft => (nft, imgUpload nft.url)).map
          fun r => r.1.id) ↔ id ∈ batch.map fun nft => nft.id := by
        intro id
        rw [List.map_map]
        exact Iff.rfl
      have hpres2 : ∀ id, id ∉ batch.map (fun nft => nft.id) →
          findById (collectImages (batch.map fun nft => (nft, imgUpload nft.url))
            (markUploading batch st).1).1 id = findById st id := by
        intro id hid
        rw [C3 id (fun hm => hid ((hresid id).mp hm)), M2 id hid]
      have hstep : step1 imgUpload (batch :: rest) st =
          ((step1 imgUpload rest (collectImages (batch.map fun nft => (nft, imgUpload nft.url)) (markUploading batch st).1).1).1,
            (markUploading batch st).2 ++
              (collectImages (batch.map fun nft => (nft, imgUpload nft.url)) (markUploading batch st).1).2.1 ++
              (step1 imgUpload rest (collectImages (batch.map fun nft => (nft, imgUpload nft.url)) (markUploading batch st).1).1).2.1,
            (collectImages (batch.map fun nft => (nft, imgUpload nft.url)) (markUploading batch st).1).2.2 ++
              (step1 imgUpload rest (collectImages (batch.map fun nft => (nft, imgUpload nft.url)) (markUploading batch st).1).1).2.2) := by
        simp only [step1]
      rw [hstep]
      refine ⟨?_, ?_, ?_, ?_, ?_⟩
      · intro nft hmem
        have hmem2 : nft ∈ batch ++ rest.flatten := by
          rw [List.flatten_cons] at hmem
          exact hmem
        rcases List.mem_append.mp hmem2 with hbm | hrm
        · have hmemid : nft.id ∈ batch.map fun nft => nft.id :=
            List.mem_map_of_mem _ hbm
          have hrmem : (nft, imgUpload nft.url) ∈
              batch.map fun nft => (nft, imgUpload nft.url) :=
            List.mem_map_of_mem _ hbm
          have hfinal : findById (step1 imgUpload rest
              (collectImages (batch.map fun nft => (nft, imgUpload nft.url))
                (markUploading batch st).1).1).1 nft.id =
              findById (collectImages (batch.map fun nft => (nft, imgUpload nft.url))
                (markUploading batch st).1).1 nft.id :=
            B2 nft.id fun hin => hdisj nft.id hmemid hin
          constructor
          · intro hok
            rw [hfinal, C1 (nft, imgUpload nft.url) hrmem hok, M1 nft hbm]
          · intro hbad
            rw [hfinal, C2 (nft, imgUpload nft.url) hrmem hbad, M1 nft hbm,
              option_map_uploading_failed]
        · have hmemid : nft.id ∈ rest.flatten.map fun nft => nft.id :=
            List.mem_map_of_mem _ hrm
          have hnotb : nft.id ∉ batch.map fun nft => nft.id :=
            fun hin => hdisj nft.id hin hmemid
          obtain ⟨ha, hb⟩ := B1 nft hrm
          constructor
          · intro hok
            rw [ha hok, hpres2 nft.id hnotb]
          · intro hbad
            rw [hb hbad, hpres2 nft.id hnotb]
      · intro id hid
        rw [List.flatten_cons, List.map_append, List.mem_append] at hid
        push_neg at hid
        rw [B2 id hid.2, hpres2 id hid.1]
      · rw [B3, C4, M3]
      · rw [B4, C5, List.filterMap_map, List.flatten_cons, List.filterMap_append]
        rfl
      · intro pr hpr
        rcases List.mem_append.mp hpr with h12 | h3
        · rcases List.mem_append.mp h12 with h1 | h2
          · obtain ⟨nft2, hmem, img, hfind, heq⟩ := M4 pr h1
            refine Or.inr ⟨nft2, ?_, img, hfind, heq⟩
            rw [List.flatten_cons]
            exact List.mem_append.mpr (Or.inl hmem)
          · exact Or.inl (C6 pr h2)
        · rcases B5 pr h3 with hf2 | ⟨nft2, hmem, img, hfind, heq⟩
          · exact Or.inl hf2
          · have hmemid : nft2.id ∈ rest.flatten.map fun nft => nft.id :=
              List.mem_map_of_mem _ hmem
            have hnotb : nft2.id ∉ batch.map fun nft => nft.id :=
              fun hin => hdisj nft2.id hin hmemid
            refine Or.inr ⟨nft2, ?_, img, ?_, heq⟩
            · rw [List.flatten_cons]
              exact List.mem_append.mpr (Or.inr hmem)
            · rw [← hpres2 nft2.id hnotb]
              exact hfind

theorem option_map_minting_absorb (o : Option NFTImage) (ih mh : String) :
    ∀ (g : NFTImage → NFTImage),
    (∀ img, g img = { img with imageHash := some ih, metadataHash := some mh, status := Status.minting }) →
    o.map g = o.map fun img => { img with imageHash := some ih, metadataHash := some mh, status := Status.minting } := by
  intro g hg
  cases o with
  | none => rfl
  | some img => simp [hg]

theorem collectMetadata_spec :
    ∀ (results : List ((NFTImage × String) × StorageResult)) (st : List NFTImage),
    (idsOf st).Nodup → ((results.map fun r => r.1.1.id).Nodup) →
    (∀ r ∈ results, r.2.success = true ∧ r.2.hash ≠ "" →
        findById (collectMetadata results st).1 r.1.1.id =
          (findById st r.1.1.id).map fun img =>
            { img with imageHash := some r.1.2, metadataHash := some r.2.hash, status := Status.minting }) ∧
    (∀ r ∈ results, ¬ (r.2.success = true ∧ r.2.hash ≠ "") →
        findById (collectMetadata results st).1 r.1.1.id =
          (findById st r.1.1.id).map fun img => { img with status := Status.failed }) ∧
    (∀ id, id ∉ results.map (fun r => r.1.1.id) →
        findById (collectMetadata results st).1 id = findById st id) ∧
    idsOf (collectMetadata results st).1 = idsOf st ∧
    ((collectMetadata results st).2.2 = results.filterMap fun r =>
        if r.2.success = true ∧ r.2.hash ≠ ""
        then some (⟨r.1.1, r.1.2, r.2.hash⟩ : MetaEntry) else none) ∧
    (∀ pr ∈ (collectMetadata results st).2.1, pr.2 = Status.failed ∨
        ∃ r2 ∈ results, ∃ img, findById st r2.1.1.id = some img ∧
          pr = (img.status, Status.minting)) := by
  intro results
  induction results with
  | nil =>
      intro st hnd hrn
      exact ⟨fun r h => absurd h (List.not_mem_nil r),
        fun r h => absurd h (List.not_mem_nil r), fun id _ => rfl, rfl, rfl,
        fun pr hpr => absurd hpr (List.not_mem_nil pr)⟩
  | cons r0 rest ih =>
      intro st hnd hrn
      have hrn2 : ((rest.map fun r => r.1.1.id).Nodup) := by
        rw [List.map_cons] at hrn
        exact (List.nodup_cons.mp hrn).2
      have hnotin : r0.1.1.id ∉ rest.map fun r => r.1.1.id := by
        rw [List.map_cons] at hrn
        exact (List.nodup_cons.mp hrn).1
      obtain ⟨e0, res0⟩ := r0
      by_cases hok : res0.success = true ∧ res0.hash ≠ ""
      · have hf : ∀ img : NFTImage,
            ((fun img => { img with imageHash := some e0.2, metadataHash := some res0.hash, status := Status.minting } : NFTImage → NFTImage) img).id = img.id :=
          fun _ => rfl
        have hnd1 : (idsOf (updateById st e0.1.id _)).Nodup :=
          nodup_updateById st e0.1.id _ hf hnd
        obtain ⟨iha, ihb, ihc, ihd, ihe, ihf2⟩ := ih (updateById st e0.1.id _) hnd1 hrn2
        have hstep : collectMetadata ((e0, res0) :: rest) st =
            ((collectMetadata rest (updateById st e0.1.id fun img => { img with imageHash := some e0.2, metadataHash := some res0.hash, status := Status.minting })).1,
              traceOf st e0.1.id (fun img => { img with imageHash := some e0.2, metadataHash := some res0.hash, status := Status.minting }) ++
                (collectMetadata rest (updateById st e0.1.id fun img => { img with imageHash := some e0.2, metadataHash := some res0.hash, status := Status.minting })).2.1,
              (⟨e0.1, e0.2, res0.hash⟩ : MetaEntry) ::
                (collectMetadata rest (updateById st e0.1.id fun img => { img with imageHash := some e0.2, metadataHash := some res0.hash, status := Status.minting })).2.2) := by
          simp only [collectMetadata, if_pos hok]
        rw [hstep]
        refine ⟨?_, ?_, ?_, ?_, ?_, ?_⟩
        · intro r hr hrok
          rcases List.mem_cons.mp hr with rfl | hrr
          · rw [ihc e0.1.id hnotin, findById_updateById_self st e0.1.id _ hf]
          · have hne : r.1.1.id ≠ e0.1.id := by
              intro he
              exact hnotin (he ▸ List.mem_map_of_mem _ hrr)
            rw [iha r hrr hrok, findById_updateById_ne st e0.1.id _ _ hf hne]
        · intro r hr hrbad
          rcases List.mem_cons.mp hr with rfl | hrr
          · exact absurd hok hrbad
          · have hne : r.1.1.id ≠ e0.1.id := by
              intro he
              exact hnotin (he ▸ List.mem_map_of_mem _ hrr)
            rw [ihb r hrr hrbad, findById_updateById_ne st e0.1.id _ _ hf hne]
        · intro id hid
          have hne : id ≠ e0.1.id := by
            intro he
            apply hid
            rw [List.map_cons, he]
            exact List.mem_cons_self _ _
          have hid2 : id ∉ rest.map fun r => r.1.1.id := by
            intro hm
            apply hid
            rw [List.map_cons]
            exact List.mem_cons_of_mem _ hm
          rw [ihc id hid2, findById_updateById_ne st e0.1.id _ _ hf hne]
        · rw [ihd, idsOf_updateById st e0.1.id _ hf]
        · rw [List.filterMap_cons, if_pos hok, ihe]
        · intro pr hpr
          rcases List.mem_append.mp hpr with hl | hr
          · obtain ⟨img, hmem, hid, heq⟩ := mem_traceOf st e0.1.id _ pr hl
            refine Or.inr ⟨(e0, res0), List.mem_cons_self _ _, img, ?_, heq⟩
            rw [← hid]
            exact findById_of_mem st img hnd hmem
          · rcases ihf2 pr hr with hfail | ⟨r2, hrr, img, hfind, heq⟩
            · exact Or.inl hfail
            · have hne : r2.1.1.id ≠ e0.1.id := by
                intro he
                exact hnotin (he ▸ List.mem_map_of_mem _ hrr)
              refine Or.inr ⟨r2, List.mem_cons_of_mem _ hrr, img, ?_, heq⟩
              rw [← findById_updateById_ne st e0.1.id r2.1.1.id _ hf hne]
              exact hfind
      · have hf : ∀ img : NFTImage,
            ((fun img => { img with status := Status.failed } : NFTImage → NFTImage) img).id = img.id :=
          fun _ => rfl
        have hnd1 : (idsOf (updateById st e0.1.id _)).Nodup :=
          nodup_updateById st e0.1.id _ hf hnd
        obtain ⟨iha, ihb, ihc, ihd, ihe, ihf2⟩ := ih (updateById st e0.1.id _) hnd1 hrn2
        have hstep : collectMetadata ((e0, res0) :: rest) st =
            ((collectMetadata rest (updateById st e0.1.id fun img => { img with status := Status.failed })).1,
              traceOf st e0.1.id (fun img => { img with status := Status.failed }) ++
                (collectMetadata rest (updateById st e0.1.id fun img => { img with status := Status.failed })).2.1,
              (collectMetadata rest (updateById st e0.1.id fun img => { img with status := Status.failed })).2.2) := by
          simp only [collectMetadata, if_neg hok]
        rw [hstep]
        refine ⟨?_, ?_, ?_, ?_, ?_, ?_⟩
        · intro r hr hrok
          rcases List.mem_cons.mp hr with rfl | hrr
          · exact absurd hrok hok
          · have hne : r.1.1.id ≠ e0.1.id := by
              intro he
              exact hnotin (he ▸ List.mem_map_of_mem _ hrr)
            rw [iha r hrr hrok, findById_updateById_ne st e0.1.id _ _ hf hne]
        · intro r hr hrbad
          rcases List.mem_cons.mp hr with rfl | hrr
          · rw [ihc e0.1.id hnotin, findById_updateById_self st e0.1.id _ hf]
          · have hne : r.1.1.id ≠ e0.1.id := by
              intro he
              exact hnotin (he ▸ List.mem_map_of_mem _ hrr)
            rw [ihb r hrr hrbad, findById_updateById_ne st e0.1.id _ _ hf hne]
        · intro id hid
          have hne : id ≠ e0.1.id := by
            intro he
            apply hid
            rw [List.map_cons, he]
            exact List.mem_cons_self _ _
          have hid2 : id ∉ rest.map fun r => r.1.1.id := by
            intro hm
            apply hid
            rw [List.map_cons]
            exact List.mem_cons_of_mem _ hm
          rw [ihc id hid2, findById_updateById_ne st e0.1.id _ _ hf hne]
        · rw [ihd, idsOf_updateById st e0.1.id _ hf]
        · rw [List.filterMap_cons, if_neg hok, ihe]
        · intro pr hpr
          rcases List.mem_append.mp hpr with hl | hr
          · obtain ⟨img, _, _, heq⟩ := mem_traceOf st e0.1.id _ pr hl
            exact Or.inl (by rw [heq])
          · rcases ihf2 pr hr with hfail | ⟨r2, hrr, img, hfind, heq⟩
            · exact Or.inl hfail
            · have hne : r2.1.1.id ≠ e0.1.id := by
                intro he
                exact hnotin (he ▸ List.mem_map_of_mem _ hrr)
              refine Or.inr ⟨r2, List.mem_cons_of_mem _ hrr, img, ?_, heq⟩
              rw [← findById_updateById_ne st e0.1.id r2.1.1.id _ hf hne]
              exact hfind

theorem step2_spec (metaUpload : NFTMetadata → StorageResult) (resolution : String) :
    ∀ (chunks : List (List (NFTImage × String))) (st : List NFTImage),
    (idsOf st).Nodup → ((chunks.flatten.map fun e => e.1.id).Nodup) →
    (∀ e ∈ chunks.flatten,
        ((metaUpload (metaFor resolution e)).success = true ∧
            (metaUpload (metaFor resolution e)).hash ≠ "" →
          findById (step2 metaUpload resolution chunks st).1 e.1.id =
            (findById st e.1.id).map fun img =>
              { img with imageHash := some e.2, metadataHash := some (metaUpload (metaFor resolution e)).hash, status := Status.minting }) ∧
        (¬ ((metaUpload (metaFor resolution e)).success = true ∧
            (metaUpload (metaFor resolution e)).hash ≠ "") →
          findById (step2 metaUpload resolution chunks st).1 e.1.id =
            (findById st e.1.id).map fun img => { img with status := Status.failed })) ∧
    (∀ id, id ∉ chunks.flatten.map (fun e => e.1.id) →
        findById (step2 metaUpload resolution chunks st).1 id = findById st id) ∧
    idsOf (step2 metaUpload resolution chunks st).1 = idsOf st ∧
    ((step2 metaUpload resolution chunks st).2.2 = chunks.flatten.filterMap fun e =>
        if (metaUpload (metaFor resolution e)).success = true ∧
            (metaUpload (metaFor resolution e)).hash ≠ ""
        then some (⟨e.1, e.2, (metaUpload (metaFor resolution e)).hash⟩ : MetaEntry)
        else none) ∧
    (∀ pr ∈ (step2 metaUpload resolution chunks st).2.1, pr.2 = Status.failed ∨
        ∃ e2 ∈ chunks.flatten, ∃ img, findById st e2.1.id = some img ∧
          pr = (img.status, Status.minting)) := by
  intro chunks
  induction chunks with
  | nil =>
      intro st hnd hfl
      exact ⟨fun e h => absurd h (List.not_mem_nil e), fun id _ => rfl, rfl,
        rfl, fun pr hpr => absurd hpr (List.not_mem_nil pr)⟩
  | cons batch rest ih =>
      intro st hnd hfl
      rw [List.flatten_cons, List.map_append] at hfl
      have n1 : ((batch.map fun e => e.1.id).Nodup) := (List.nodup_append.mp hfl).1
      have n2 : ((rest.flatten.map fun e => e.1.id).Nodup) :=
        (List.nodup_append.mp hfl).2.1
      have hdisj : ∀ a ∈ batch.map fun e => e.1.id,
          a ∉ rest.flatten.map fun e => e.1.id :=
        fun a ha hb => (List.nodup_append.mp hfl).2.2 ha hb
      have hresn : (((batch.map fun e => (e, metaUpload (metaFor resolution e))).map
          fun r => r.1.1.id).Nodup) := by
        rw [List.map_map]
        exact n1
      obtain ⟨C1, C2, C3, C4, C5, C6⟩ :=
        collectMetadata_spec (batch.map fun e => (e, metaUpload (metaFor resolution e)))
          st hnd hresn
      have hnd2 : (idsOf (collectMetadata
          (batch.map fun e => (e, metaUpload (metaFor resolution e))) st).1).Nodup := by
        rw [C4]
        exact hnd
      obtain ⟨B1, B2, B3, B4, B5⟩ :=
        ih (collectMetadata (batch.map fun e => (e, metaUpload (metaFor resolution e))) st).1
          hnd2 n2
      have hpres2 : ∀ id, id ∉ batch.map (fun e => e.1.id) →
          findById (collectMetadata
            (batch.map fun e => (e, metaUpload (metaFor resolution e))) st).1 id =
            findById st id := by
        intro id hid
        refine C3 id fun hm => hid ?_
        rw [List.map_map] at hm
        exact hm
      have hstep : step2 metaUpload resolution (batch :: rest) st =
          ((step2 metaUpload resolution rest (collectMetadata (batch.map fun e => (e, metaUpload (metaFor resolution e))) st).1).1,
            (collectMetadata (batch.map fun e => (e, metaUpload (metaFor resolution e))) st).2.1 ++
              (step2 metaUpload resolution rest (collectMetadata (batch.map fun e => (e, metaUpload (metaFor resolution e))) st).1).2.1,
            (collectMetadata (batch.map fun e => (e, metaUpload (metaFor resolution e))) st).2.2 ++
              (step2 metaUpload resolution rest (collectMetadata (batch.map fun e => (e, metaUpload (metaFor resolution e))) st).1).2.2) := by
        simp only [step2]
      rw [hstep]
      refine ⟨?_, ?_, ?_, ?_, ?_⟩
      · intro e hmem
        have hmem2 : e ∈ batch ++ rest.flatten := by
          rw [List.flatten_cons] at hmem
          exact hmem
        rcases List.mem_append.mp hmem2 with hbm | hrm
        · have hmemid : e.1.id ∈ batch.map fun e => e.1.id :=
            List.mem_map_of_mem _ hbm
          have hrmem : (e, metaUpload (metaFor resolution e)) ∈
              batch.map fun e => (e, metaUpload (metaFor resolution e)) :=
            List.mem_map_of_mem _ hbm
          have hfinal : findById (step2 metaUpload resolution rest
              (collectMetadata (batch.map fun e => (e, metaUpload (metaFor resolution e))) st).1).1 e.1.id =
              findById (collectMetadata
                (batch.map fun e => (e, metaUpload (metaFor resolution e))) st).1 e.1.id :=
            B2 e.1.id fun hin => hdisj e.1.id hmemid hin
          constructor
          · intro hok
            rw [hfinal, C1 (e, metaUpload (metaFor resolution e)) hrmem hok]
          · intro hbad
            rw [hfinal, C2 (e, metaUpload (metaFor resolution e)) hrmem hbad]
        · have hmemid : e.1.id ∈ rest.flatten.map fun e => e.1.id :=
            List.mem_map_of_mem _ hrm
          have hnotb : e.1.id ∉ batch.map fun e => e.1.id :=
            fun hin => hdisj e.1.id hin hmemid
          obtain ⟨ha, hb⟩ := B1 e hrm
          constructor
          · intro hok
            rw [ha hok, hpres2 e.1.id hnotb]
          · intro hbad
            rw [hb hbad, hpres2 e.1.id hnotb]
      · intro id hid
        rw [List.flatten_cons, List.map_append, List.mem_append] at hid
        push_neg at hid
        rw [B2 id hid.2, hpres2 id hid.1]
      · rw [B3, C4]
      · rw [B4, C5, List.filterMap_map, List.flatten_cons, List.filterMap_append]
        rfl
      · intro pr hpr
        rcases List.mem_append.mp hpr with h1 | h3
        · rcases C6 pr h1 with hfail | ⟨r2, hrr, img, hfind, heq⟩
          · exact Or.inl hfail
          · obtain ⟨e2, hbm, hre⟩ := List.mem_map.mp hrr
            refine Or.inr ⟨e2, ?_, img, ?_, heq⟩
            · rw [List.flatten_cons]
              exact List.mem_append.mpr (Or.inl hbm)
            · rw [← hre] at hfind
              exact hfind
        · rcases B5 pr h3 with hfail | ⟨e2, hmem, img, hfind, heq⟩
          · exact Or.inl hfail
          · have hmemid : e2.1.id ∈ rest.flatten.map fun e => e.1.id :=
              List.mem_map_of_mem _ hmem
            have hnotb : e2.1.id ∉ batch.map fun e => e.1.id :=
              fun hin => hdisj e2.1.id hin hmemid
            refine Or.inr ⟨e2, ?_, img, ?_, heq⟩
            · rw [List.flatten_cons]
              exact List.mem_append.mpr (Or.inr hmem)
            · rw [← hpres2 e2.1.id hnotb]
              exact hfind

/-- C6: in a 5-item upload batch where item 3's image upload fails and the
other uploads, metadata uploads and the batch mint succeed, items 1, 2, 4
and 5 continue through metadata upload and minting and end minted, while
item 3 alone ends failed. -/
theorem upload_batch_isolation (o : MintOracles) (resolution : String)
    (a b c d e : NFTImage)
    (hsa : a.status = Status.completed) (hsb : b.status = Status.completed)
    (hsc : c.status = Status.completed) (hsd : d.status = Status.completed)
    (hse : e.status = Status.completed)
    (hnd : (idsOf [a, b, c, d, e]).Nodup)
    (hga : (o.imgUpload a.url).success = true) (hga2 : (o.imgUpload a.url).hash ≠ "")
    (hgb : (o.imgUpload b.url).success = true) (hgb2 : (o.imgUpload b.url).hash ≠ "")
    (hbad : ¬ ((o.imgUpload c.url).success = true ∧ (o.imgUpload c.url).hash ≠ ""))
    (hgd : (o.imgUpload d.url).success = true) (hgd2 : (o.imgUpload d.url).hash ≠ "")
    (hge : (o.imgUpload e.url).success = true) (hge2 : (o.imgUpload e.url).hash ≠ "")
    (hmeta : ∀ m, (o.metaUpload m).success = true ∧ (o.metaUpload m).hash ≠ "")
    (hchain : ∀ inp, ∃ tx logs, o.chain inp = Except.ok (tx, logs)) :
    statusOf (handleMint o resolution [a, b, c, d, e]).1 a.id = some Status.minted ∧
    statusOf (handleMint o resolution [a, b, c, d, e]).1 b.id = some Status.minted ∧
    statusOf (handleMint o resolution [a, b, c, d, e]).1 d.id = some Status.minted ∧
    statusOf (handleMint o resolution [a, b, c, d, e]).1 e.id = some Status.minted ∧
    statusOf (handleMint o resolution [a, b, c, d, e]).1 c.id = some Status.failed := by
  have hneq : (idsOf [a, b, c, d, e]) = [a.id, b.id, c.id, d.id, e.id] := rfl
  rw [hneq] at hnd
  have hds := List.nodup_cons.mp hnd
  have hds2 := List.nodup_cons.mp hds.2
  have hds3 := List.nodup_cons.mp hds2.2
  have hds4 := List.nodup_cons.mp hds3.2
  have hab : a.id ≠ b.id := fun h => hds.1 (by simp [h])
  have hac : a.id ≠ c.id := fun h => hds.1 (by simp [h])
  have had : a.id ≠ d.id := fun h => hds.1 (by simp [h])
  have hae : a.id ≠ e.id := fun h => hds.1 (by simp [h])
  have hbc : b.id ≠ c.id := fun h => hds2.1 (by simp [h])
  have hbd : b.id ≠ d.id := fun h => hds2.1 (by simp [h])
  have hbe : b.id ≠ e.id := fun h => hds2.1 (by simp [h])
  have hcd : c.id ≠ d.id := fun h => hds3.1 (by simp [h])
  have hce : c.id ≠ e.id := fun h => hds3.1 (by simp [h])
  have hde : d.id ≠ e.id := fun h => hds4.1 (by simp [h])
  have hnd5 : (idsOf [a, b, c, d, e]).Nodup := by
    rw [hneq]
    exact hnd
  have hfilter : ([a, b, c, d, e].filter fun img => img.status = Status.completed) =
      [a, b, c, d, e] := by
    simp [List.filter, hsa, hsb, hsc, hsd, hse]
  have hchunks1 : chunksOf 5 [a, b, c, d, e] = [[a, b, c, d, e]] := by
    rw [show (5 : Nat) = 4 + 1 from rfl]
    rw [chunksOf]
    simp [chunksOf]
  have hfl1 : ((([[a, b, c, d, e]] : List (List NFTImage)).flatten.map
      fun nft => nft.id).Nodup) := by
    simp only [List.flatten_cons, List.flatten_nil, List.append_nil]
    exact hnd5
  obtain ⟨S1a, S1b, S1c, S1d, S1e⟩ :=
    step1_spec o.imgUpload [[a, b, c, d, e]] [a, b, c, d, e] hnd5 hfl1
  have hacc1 : (step1 o.imgUpload [[a, b, c, d, e]] [a, b, c, d, e]).2.2 =
      [(a, (o.imgUpload a.url).hash), (b, (o.imgUpload b.url).hash),
        (d, (o.imgUpload d.url).hash), (e, (o.imgUpload e.url).hash)] := by
    rw [S1d]
    simp only [List.flatten, List.append_nil, List.filterMap]
    simp [hga, hga2, hgb, hgb2, hbad, hgd, hgd2, hge, hge2]
  have hnds1 : (idsOf (step1 o.imgUpload [[a, b, c, d, e]] [a, b, c, d, e]).1).Nodup := by
    rw [S1c]
    exact hnd5
  have hchunks2 : chunksOf 5 [(a, (o.imgUpload a.url).hash), (b, (o.imgUpload b.url).hash),
      (d, (o.imgUpload d.url).hash), (e, (o.imgUpload e.url).hash)] =
      [[(a, (o.imgUpload a.url).hash), (b, (o.imgUpload b.url).hash),
        (d, (o.imgUpload d.url).hash), (e, (o.imgUpload e.url).hash)]] := by
    rw [show (5 : Nat) = 4 + 1 from rfl]
    rw [chunksOf]
    simp [chunksOf]
  have hfl2 : ((([[(a, (o.imgUpload a.url).hash), (b, (o.imgUpload b.url).hash),
      (d, (o.imgUpload d.url).hash), (e, (o.imgUpload e.url).hash)]] :
      List (List (NFTImage × String))).flatten.map fun p => p.1.id).Nodup) := by
    simp only [List.flatten, List.append_nil, List.map]
    simp [List.nodup_cons, hab, had, hae, hbd, hbe, hde]
  obtain ⟨S2a, S2b, S2c, S2d, S2e⟩ :=
    step2_spec o.metaUpload resolution
      [[(a, (o.imgUpload a.url).hash), (b, (o.imgUpload b.url).hash),
        (d, (o.imgUpload d.url).hash), (e, (o.imgUpload e.url).hash)]]
      (step1 o.imgUpload [[a, b, c, d, e]] [a, b, c, d, e]).1 hnds1 hfl2
  have hacc2 : (step2 o.metaUpload resolution
      [[(a, (o.imgUpload a.url).hash), (b, (o.imgUpload b.url).hash),
        (d, (o.imgUpload d.url).hash), (e, (o.imgUpload e.url).hash)]]
      (step1 o.imgUpload [[a, b, c, d, e]] [a, b, c, d, e]).1).2.2 =
      [⟨a, (o.imgUpload a.url).hash, (o.metaUpload (metaFor resolution (a, (o.imgUpload a.url).hash))).hash⟩,
        ⟨b, (o.imgUpload b.url).hash, (o.metaUpload (metaFor resolution (b, (o.imgUpload b.url).hash))).hash⟩,
        ⟨d, (o.imgUpload d.url).hash, (o.metaUpload (metaFor resolution (d, (o.imgUpload d.url).hash))).hash⟩,
        ⟨e, (o.imgUpload e.url).hash, (o.metaUpload (metaFor resolution (e, (o.imgUpload e.url).hash))).hash⟩] := by
    rw [S2d]
    simp only [List.flatten, List.append_nil, List.filterMap]
    simp [fun m => (hmeta m).1, fun m => (hmeta m).2]
  have hnds2 : (idsOf (step2 o.metaUpload resolution
      [[(a, (o.imgUpload a.url).hash), (b, (o.imgUpload b.url).hash),
        (d, (o.imgUpload d.url).hash), (e, (o.imgUpload e.url).hash)]]
      (step1 o.imgUpload [[a, b, c, d, e]] [a, b, c, d, e]).1).1).Nodup := by
    rw [S2c]
    exact hnds1
  have hchunks3 : chunksOf 5
      [(⟨a, (o.imgUpload a.url).hash, (o.metaUpload (metaFor resolution (a, (o.imgUpload a.url).hash))).hash⟩ : MetaEntry),
        ⟨b, (o.imgUpload b.url).hash, (o.metaUpload (metaFor resolution (b, (o.imgUpload b.url).hash))).hash⟩,
        ⟨d, (o.imgUpload d.url).hash, (o.metaUpload (metaFor resolution (d, (o.imgUpload d.url).hash))).hash⟩,
        ⟨e, (o.imgUpload e.url).hash, (o.metaUpload (metaFor resolution (e, (o.imgUpload e.url).hash))).hash⟩] =
      [[(⟨a, (o.imgUpload a.url).hash, (o.metaUpload (metaFor resolution (a, (o.imgUpload a.url).hash))).hash⟩ : MetaEntry),
        ⟨b, (o.imgUpload b.url).hash, (o.metaUpload (metaFor resolution (b, (o.imgUpload b.url).hash))).hash⟩,
        ⟨d, (o.imgUpload d.url).hash, (o.metaUpload (metaFor resolution (d, (o.imgUpload d.url).hash))).hash⟩,
        ⟨e, (o.imgUpload e.url).hash, (o.metaUpload (metaFor resolution (e, (o.imgUpload e.url).hash))).hash⟩]] := by
    rw [show (5 : Nat) = 4 + 1 from rfl]
    rw [chunksOf]
    simp [chunksOf]
  have hfl3 : ((([[(⟨a, (o.imgUpload a.url).hash, (o.metaUpload (metaFor resolution (a, (o.imgUpload a.url).hash))).hash⟩ : MetaEntry),
      ⟨b, (o.imgUpload b.url).hash, (o.metaUpload (metaFor resolution (b, (o.imgUpload b.url).hash))).hash⟩,
      ⟨d, (o.imgUpload d.url).hash, (o.metaUpload (metaFor resolution (d, (o.imgUpload d.url).hash))).hash⟩,
      ⟨e, (o.imgUpload e.url).hash, (o.metaUpload (metaFor resolution (e, (o.imgUpload e.url).hash))).hash⟩]] :
      List (List MetaEntry)).flatten.map fun en => en.nft.id).Nodup) := by
    simp only [List.flatten_cons, List.flatten_nil, List.append_nil, List.map]
    simp [List.nodup_cons, hab, had, hae, hbd, hbe, hde]
  obtain ⟨M1, M2, M3, M4, M5⟩ :=
    mintPhaseGo_spec o.chain
      [[(⟨a, (o.imgUpload a.url).hash, (o.metaUpload (metaFor resolution (a, (o.imgUpload a.url).hash))).hash⟩ : MetaEntry),
        ⟨b, (o.imgUpload b.url).hash, (o.metaUpload (metaFor resolution (b, (o.imgUpload b.url).hash))).hash⟩,
        ⟨d, (o.imgUpload d.url).hash, (o.metaUpload (metaFor resolution (d, (o.imgUpload d.url).hash))).hash⟩,
        ⟨e, (o.imgUpload e.url).hash, (o.metaUpload (metaFor resolution (e, (o.imgUpload e.url).hash))).hash⟩]]
      (step2 o.metaUpload resolution
        [[(a, (o.imgUpload a.url).hash), (b, (o.imgUpload b.url).hash),
          (d, (o.imgUpload d.url).hash), (e, (o.imgUpload e.url).hash)]]
        (step1 o.imgUpload [[a, b, c, d, e]] [a, b, c, d, e]).1).1 hnds2 hfl3
  obtain ⟨tx, logs, hch⟩ := hchain
    ([(⟨a, (o.imgUpload a.url).hash, (o.metaUpload (metaFor resolution (a, (o.imgUpload a.url).hash))).hash⟩ : MetaEntry),
      ⟨b, (o.imgUpload b.url).hash, (o.metaUpload (metaFor resolution (b, (o.imgUpload b.url).hash))).hash⟩,
      ⟨d, (o.imgUpload d.url).hash, (o.metaUpload (metaFor resolution (d, (o.imgUpload d.url).hash))).hash⟩,
      ⟨e, (o.imgUpload e.url).hash, (o.metaUpload (metaFor resolution (e, (o.imgUpload e.url).hash))).hash⟩].map toMintInput)
  have hEmem := List.mem_cons_self
    [(⟨a, (o.imgUpload a.url).hash, (o.metaUpload (metaFor resolution (a, (o.imgUpload a.url).hash))).hash⟩ : MetaEntry),
      ⟨b, (o.imgUpload b.url).hash, (o.metaUpload (metaFor resolution (b, (o.imgUpload b.url).hash))).hash⟩,
      ⟨d, (o.imgUpload d.url).hash, (o.metaUpload (metaFor resolution (d, (o.imgUpload d.url).hash))).hash⟩,
      ⟨e, (o.imgUpload e.url).hash, (o.metaUpload (metaFor resolution (e, (o.imgUpload e.url).hash))).hash⟩] ([] : List (List MetaEntry))
  have hokchar := (M2 _ hEmem).1 tx logs hch
  have hfa := hokchar 0 (by simp)
  have hfb := hokchar 1 (by simp)
  have hfd := hokchar 2 (by simp)
  have hfe := hokchar 3 (by simp)
  simp only [List.get] at hfa hfb hfd hfe
  have hHM : (handleMint o resolution [a, b, c, d, e]).1 =
      (mintPhaseGo o.chain
        [[(⟨a, (o.imgUpload a.url).hash, (o.metaUpload (metaFor resolution (a, (o.imgUpload a.url).hash))).hash⟩ : MetaEntry),
          ⟨b, (o.imgUpload b.url).hash, (o.metaUpload (metaFor resolution (b, (o.imgUpload b.url).hash))).hash⟩,
          ⟨d, (o.imgUpload d.url).hash, (o.metaUpload (metaFor resolution (d, (o.imgUpload d.url).hash))).hash⟩,
          ⟨e, (o.imgUpload e.url).hash, (o.metaUpload (metaFor resolution (e, (o.imgUpload e.url).hash))).hash⟩]]
        (step2 o.metaUpload resolution
          [[(a, (o.imgUpload a.url).hash), (b, (o.imgUpload b.url).hash),
            (d, (o.imgUpload d.url).hash), (e, (o.imgUpload e.url).hash)]]
          (step1 o.imgUpload [[a, b, c, d, e]] [a, b, c, d, e]).1).1).1 := by
    have hne5 : ¬ ([a, b, c, d, e] : List NFTImage) = [] := by
      simp
    simp only [handleMint, hfilter, if_neg hne5, hchunks1, hacc1, hchunks2, hacc2,
      hchunks3]
  have h0a : findById [a, b, c, d, e] a.id = some a :=
    findById_of_mem _ a hnd5 (by simp)
  have h0b : findById [a, b, c, d, e] b.id = some b :=
    findById_of_mem _ b hnd5 (by simp)
  have h0c : findById [a, b, c, d, e] c.id = some c :=
    findById_of_mem _ c hnd5 (by simp)
  have h0d : findById [a, b, c, d, e] d.id = some d :=
    findById_of_mem _ d hnd5 (by simp)
  have h0e : findById [a, b, c, d, e] e.id = some e :=
    findById_of_mem _ e hnd5 (by simp)
  have h1a := (S1a a (by simp)).1 ⟨hga, hga2⟩
  have h1b := (S1a b (by simp)).1 ⟨hgb, hgb2⟩
  have h1c := (S1a c (by simp)).2 hbad
  have h1d := (S1a d (by simp)).1 ⟨hgd, hgd2⟩
  have h1e := (S1a e (by simp)).1 ⟨hge, hge2⟩
  have h2a := (S2a (a, (o.imgUpload a.url).hash) (by simp)).1
    ⟨(hmeta _).1, (hmeta _).2⟩
  have h2b := (S2a (b, (o.imgUpload b.url).hash) (by simp)).1
    ⟨(hmeta _).1, (hmeta _).2⟩
  have h2d := (S2a (d, (o.imgUpload d.url).hash) (by simp)).1
    ⟨(hmeta _).1, (hmeta _).2⟩
  have h2e := (S2a (e, (o.imgUpload e.url).hash) (by simp)).1
    ⟨(hmeta _).1, (hmeta _).2⟩
  have h2c : findById (step2 o.metaUpload resolution
      [[(a, (o.imgUpload a.url).hash), (b, (o.imgUpload b.url).hash),
        (d, (o.imgUpload d.url).hash), (e, (o.imgUpload e.url).hash)]]
      (step1 o.imgUpload [[a, b, c, d, e]] [a, b, c, d, e]).1).1 c.id =
      findById (step1 o.imgUpload [[a, b, c, d, e]] [a, b, c, d, e]).1 c.id := by
    apply S2b
    simp only [List.flatten_cons, List.flatten_nil, List.append_nil, List.map]
    simp only [List.mem_cons, List.not_mem_nil, or_false]
    push_neg
    exact ⟨fun h => hac h.symm, fun h => hbc h.symm, fun h => hcd h, fun h => hce h⟩
  have h3c : findById (mintPhaseGo o.chain
      [[(⟨a, (o.imgUpload a.url).hash, (o.metaUpload (metaFor resolution (a, (o.imgUpload a.url).hash))).hash⟩ : MetaEntry),
        ⟨b, (o.imgUpload b.url).hash, (o.metaUpload (metaFor resolution (b, (o.imgUpload b.url).hash))).hash⟩,
        ⟨d, (o.imgUpload d.url).hash, (o.metaUpload (metaFor resolution (d, (o.imgUpload d.url).hash))).hash⟩,
        ⟨e, (o.imgUpload e.url).hash, (o.metaUpload (metaFor resolution (e, (o.imgUpload e.url).hash))).hash⟩]]
      (step2 o.metaUpload resolution
        [[(a, (o.imgUpload a.url).hash), (b, (o.imgUpload b.url).hash),
          (d, (o.imgUpload d.url).hash), (e, (o.imgUpload e.url).hash)]]
        (step1 o.imgUpload [[a, b, c, d, e]] [a, b, c, d, e]).1).1).1 c.id =
      findById (step2 o.metaUpload resolution
        [[(a, (o.imgUpload a.url).hash), (b, (o.imgUpload b.url).hash),
          (d, (o.imgUpload d.url).hash), (e, (o.imgUpload e.url).hash)]]
        (step1 o.imgUpload [[a, b, c, d, e]] [a, b, c, d, e]).1).1 c.id := by
    apply M3
    simp only [List.flatten_cons, List.flatten_nil, List.append_nil, List.map]
    simp only [List.mem_cons, List.not_mem_nil, or_false]
    push_neg
    exact ⟨fun h => hac h.symm, fun h => hbc h.symm, fun h => hcd h, fun h => hce h⟩
  refine ⟨?_, ?_, ?_, ?_, ?_⟩
  · rw [statusOf, hHM]
    rw [hfa, h2a, h1a, h0a]
    rfl
  · rw [statusOf, hHM]
    rw [hfb, h2b, h1b, h0b]
    rfl
  · rw [statusOf, hHM]
    rw [hfd, h2d, h1d, h0d]
    rfl
  · rw [statusOf, hHM]
    rw [hfe, h2e, h1e, h0e]
    rfl
  · rw [statusOf, hHM]
    rw [h3c, h2c, h1c, h0c]
    rfl

/-- Concrete run of `upload_batch_isolation`: five completed items with the
third one's image upload failing; the other four end minted and the third
ends failed. -/
theorem upload_batch_isolation_witness :
    statusOf (handleMint mintOraclesW "1K"
      [sampleNFT 0 "u0", sampleNFT 1 "u1", sampleNFT 2 "u2",
        sampleNFT 3 "u3", sampleNFT 4 "u4"]).1 0 = some Status.minted ∧
    statusOf (handleMint mintOraclesW "1K"
      [sampleNFT 0 "u0", sampleNFT 1 "u1", sampleNFT 2 "u2",
        sampleNFT 3 "u3", sampleNFT 4 "u4"]).1 1 = some Status.minted ∧
    statusOf (handleMint mintOraclesW "1K"
      [sampleNFT 0 "u0", sampleNFT 1 "u1", sampleNFT 2 "u2",
        sampleNFT 3 "u3", sampleNFT 4 "u4"]).1 3 = some Status.minted ∧
    statusOf (handleMint mintOraclesW "1K"
      [sampleNFT 0 "u0", sampleNFT 1 "u1", sampleNFT 2 "u2",
        sampleNFT 3 "u3", sampleNFT 4 "u4"]).1 4 = some Status.minted ∧
    statusOf (handleMint mintOraclesW "1K"
      [sampleNFT 0 "u0", sampleNFT 1 "u1", sampleNFT 2 "u2",
        sampleNFT 3 "u3", sampleNFT 4 "u4"]).1 2 = some Status.failed :=
  upload_batch_isolation mintOraclesW "1K"
    (sampleNFT 0 "u0") (sampleNFT 1 "u1") (sampleNFT 2 "u2")
    (sampleNFT 3 "u3") (sampleNFT 4 "u4")
    rfl rfl rfl rfl rfl (by decide)
    (by decide) (by decide) (by decide) (by decide) (by decide)
    (by decide) (by decide) (by decide) (by decide)
    (fun m => ⟨rfl, show ("0xMETA" : String) ≠ "" by decide⟩)
    (fun inp => ⟨"0xMINT", inp.map fun _ => ChainLog.nftMinted 7, rfl⟩)

theorem mem_traceOf_updateById (st : List NFTImage) (id : Nat)
    (f g : NFTImage → NFTImage) (pr : Status × Status)
    (hp : pr ∈ traceOf (updateById st id f) id g) :
    ∃ img ∈ st, img.id = id ∧ pr = ((f img).status, (g (f img)).status) := by
  obtain ⟨img', hmem, hid, heq⟩ := mem_traceOf _ id g pr hp
  simp only [updateById, List.mem_map] at hmem
  obtain ⟨img, hmem0, heq2⟩ := hmem
  subst heq2
  by_cases h : img.id = id
  · rw [if_pos h] at heq
    exact ⟨img, hmem0, h, heq⟩
  · rw [if_neg h] at hid
    exact absurd hid h

theorem filterMap_if_map_sublist {α β : Type} (l : List α) (q : α → Prop)
    [DecidablePred q] (v : α → β) (g : β → Nat) (f : α → Nat)
    (hvg : ∀ a, g (v a) = f a) :
    ((l.filterMap fun a => if q a then some (v a) else none).map g).Sublist
      (l.map f) := by
  induction l with
  | nil => simp
  | cons a t ih =>
      by_cases hq : q a
      · have he : (a :: t).filterMap (fun a => if q a then some (v a) else none) =
            v a :: t.filterMap fun a => if q a then some (v a) else none := by
          simp [List.filterMap_cons, hq]
        rw [he, List.map_cons, List.map_cons, hvg a]
        exact List.Sublist.cons₂ _ ih
      · have he : (a :: t).filterMap (fun a => if q a then some (v a) else none) =
            t.filterMap fun a => if q a then some (v a) else none := by
          simp [List.filterMap_cons, hq]
        rw [he, List.map_cons]
        exact List.Sublist.cons _ ih

theorem applyMintSuccess_trace (tx : String) (tids : List Nat) :
    ∀ (batch : List MetaEntry) (k : Nat) (st : List NFTImage),
    (idsOf st).Nodup → ((batch.map fun e => e.nft.id).Nodup) →
    ∀ pr ∈ (applyMintSuccess tx tids k batch st).2,
      ∃ e ∈ batch, ∃ img, findById st e.nft.id = some img ∧
        pr = (img.status, Status.minted) := by
  intro batch
  induction batch with
  | nil =>
      intro k st hnd hbn pr hpr
      exact absurd hpr (List.not_mem_nil pr)
  | cons e rest ih =>
      intro k st hnd hbn pr hpr
      have hf : ∀ img : NFTImage,
          ((fun img => { img with status := Status.minted, txHash := some tx, tokenId := tids.get? k } : NFTImage → NFTImage) img).id = img.id :=
        fun _ => rfl
      have hbn2 : ((rest.map fun e => e.nft.id).Nodup) := by
        rw [List.map_cons] at hbn
        exact (List.nodup_cons.mp hbn).2
      have hnotin : e.nft.id ∉ rest.map fun e => e.nft.id := by
        rw [List.map_cons] at hbn
        exact (List.nodup_cons.mp hbn).1
      have hnd1 : (idsOf (updateById st e.nft.id _)).Nodup :=
        nodup_updateById st e.nft.id _ hf hnd
      simp only [applyMintSuccess, List.mem_append] at hpr
      rcases hpr with hl | hr
      · obtain ⟨img, hmem, hid, heq⟩ := mem_traceOf st e.nft.id _ pr hl
        refine ⟨e, List.mem_cons_self _ _, img, ?_, ?_⟩
        · rw [← hid]
          exact findById_of_mem st img hnd hmem
        · rw [heq]
      · obtain ⟨e2, he2, img, hfind, heq⟩ :=
          ih (k + 1) (updateById st e.nft.id _) hnd1 hbn2 pr hr
        have hne : e2.nft.id ≠ e.nft.id := by
          intro he
          exact hnotin (he ▸ List.mem_map_of_mem _ he2)
        refine ⟨e2, List.mem_cons_of_mem _ he2, img, ?_, heq⟩
        rw [← findById_updateById_ne st e.nft.id e2.nft.id _ hf hne]
        exact hfind

theorem applyMintFailure_trace :
    ∀ (batch : List MetaEntry) (st : List NFTImage),
    ∀ pr ∈ (applyMintFailure batch st).2, pr.2 = Status.failed := by
  intro batch
  induction batch with
  | nil =>
      intro st pr hpr
      exact absurd hpr (List.not_mem_nil pr)
  | cons e rest ih =>
      intro st pr hpr
      simp only [applyMintFailure, List.mem_append] at hpr
      rcases hpr with hl | hr
      · obtain ⟨img, _, _, heq⟩ := mem_traceOf st e.nft.id _ pr hl
        rw [heq]
      · exact ih (updateById st e.nft.id _) pr hr

theorem mintPhaseGo_trace (chain : MintChain) :
    ∀ (chunks : List (List MetaEntry)) (st : List NFTImage),
    (idsOf st).Nodup → ((chunks.flatten.map fun e => e.nft.id).Nodup) →
    ∀ pr ∈ (mintPhaseGo chain chunks st).2.1,
      pr.2 = Status.failed ∨
      ∃ e ∈ chunks.flatten, ∃ img, findById st e.nft.id = some img ∧
        pr = (img.status, Status.minted) := by
  intro chunks
  induction chunks with
  | nil =>
      intro st hnd hfl pr hpr
      exact absurd hpr (List.not_mem_nil pr)
  | cons c0 rest ih =>
      intro st hnd hfl pr hpr
      rw [List.flatten_cons, List.map_append] at hfl
      have n1 : ((c0.map fun e => e.nft.id).Nodup) := (List.nodup_append.mp hfl).1
      have n2 : ((rest.flatten.map fun e => e.nft.id).Nodup) :=
        (List.nodup_append.mp hfl).2.1
      have hdisj : ∀ a ∈ c0.map fun e => e.nft.id,
          a ∉ rest.flatten.map fun e => e.nft.id :=
        fun a ha hb => (List.nodup_append.mp hfl).2.2 ha hb
      cases hch : chain (c0.map toMintInput) with
      | ok pair =>
          obtain ⟨tx, logs⟩ := pair
          obtain ⟨A1, A2, A3, A4⟩ :=
            applyMintSuccess_spec tx (extractTokenIds logs) c0 0 st hnd n1
          have hnd1 : (idsOf (applyMintSuccess tx (extractTokenIds logs) 0 c0 st).1).Nodup := by
            rw [A3]
            exact hnd
          have hstep : (mintPhaseGo chain (c0 :: rest) st).2.1 =
              (applyMintSuccess tx (extractTokenIds logs) 0 c0 st).2 ++
                (mintPhaseGo chain rest
                  (applyMintSuccess tx (extractTokenIds logs) 0 c0 st).1).2.1 := by
            simp only [mintPhaseGo, batchMintNFTs, hch]
          rw [hstep] at hpr
          rcases List.mem_append.mp hpr with hl | hr
          · obtain ⟨e, he, img, hfind, heq⟩ :=
              applyMintSuccess_trace tx (extractTokenIds logs) c0 0 st hnd n1 pr hl
            refine Or.inr ⟨e, ?_, img, hfind, heq⟩
            rw [List.flatten_cons]
            exact List.mem_append.mpr (Or.inl he)
          · rcases ih (applyMintSuccess tx (extractTokenIds logs) 0 c0 st).1
                hnd1 n2 pr hr with h2 | ⟨e, he, img, hfind, heq⟩
            · exact Or.inl h2
            · have hne : e.nft.id ∉ c0.map fun e => e.nft.id :=
                fun hin => hdisj _ hin (List.mem_map_of_mem _ he)
              refine Or.inr ⟨e, ?_, img, ?_, heq⟩
              · rw [List.flatten_cons]
                exact List.mem_append.mpr (Or.inr he)
              · rw [← A2 e.nft.id hne]
                exact hfind
      | error err =>
          obtain ⟨F1, F2, F3, F4⟩ := applyMintFailure_spec c0 st hnd n1
          have hnd1 : (idsOf (applyMintFailure c0 st).1).Nodup := by
            rw [F3]
            exact hnd
          have hstep : (mintPhaseGo chain (c0 :: rest) st).2.1 =
              (applyMintFailure c0 st).2 ++
                (mintPhaseGo chain rest (applyMintFailure c0 st).1).2.1 := by
            simp only [mintPhaseGo, batchMintNFTs, hch]
          rw [hstep] at hpr
          rcases List.mem_append.mp hpr with hl | hr
          · exact Or.inl (F4 pr hl)
          · rcases ih (applyMintFailure c0 st).1 hnd1 n2 pr hr with h2 |
                ⟨e, he, img, hfind, heq⟩
            · exact Or.inl h2
            · have hne : e.nft.id ∉ c0.map fun e => e.nft.id :=
                fun hin => hdisj _ hin (List.mem_map_of_mem _ he)
              refine Or.inr ⟨e, ?_, img, ?_, heq⟩
              · rw [List.flatten_cons]
                exact List.mem_append.mpr (Or.inr he)
              · rw [← F2 e.nft.id hne]
                exact hfind

theorem generateItem_spec (oracle : GenOracle) (idx id : Nat) (style : String)
    (ref : Option RefImage) (st : List NFTImage) (hnd : (idsOf st).Nodup) :
    idsOf (generateItem oracle idx id style ref st).1 = idsOf st ∧
    (∀ id2, id2 ≠ id →
        findById (generateItem oracle idx id style ref st).1 id2 = findById st id2) ∧
    (∀ pr ∈ (generateItem oracle idx id style ref st).2.1,
      (∃ img, findById st id = some img ∧ pr = (img.status, Status.generating)) ∨
      (pr.1 = Status.generating ∧
        (pr.2 = Status.completed ∨ pr.2 = Status.failed))) := by
  have hfG : ∀ img : NFTImage,
      ((fun img => { img with status := Status.generating } : NFTImage → NFTImage) img).id = img.id :=
    fun _ => rfl
  cases hor : oracle idx ref with
  | error e =>
      have hfF : ∀ img : NFTImage,
          ((fun img => { img with status := Status.failed } : NFTImage → NFTImage) img).id = img.id :=
        fun _ => rfl
      refine ⟨?_, ?_, ?_⟩
      · simp only [generateItem, hor]
        rw [idsOf_updateById _ id _ hfF, idsOf_updateById _ id _ hfG]
      · intro id2 hne
        simp only [generateItem, hor]
        rw [findById_updateById_ne _ id id2 _ hfF hne,
          findById_updateById_ne _ id id2 _ hfG hne]
      · intro pr hpr
        simp only [generateItem, hor, List.mem_append] at hpr
        rcases hpr with hl | hr
        · obtain ⟨img, hmem, hid, heq⟩ := mem_traceOf st id _ pr hl
          refine Or.inl ⟨img, ?_, heq⟩
          rw [← hid]
          exact findById_of_mem st img hnd hmem
        · obtain ⟨img, _, _, heq⟩ := mem_traceOf_updateById st id _ _ pr hr
          rw [heq]
          exact Or.inr ⟨rfl, Or.inr rfl⟩
  | ok pm =>
      obtain ⟨resp, meta⟩ := pm
      have hfD : ∀ img : NFTImage,
          ((fun img => { img with status := if resp.success then Status.completed else Status.failed, url := resp.imageUrl.getD "", title := some (jsOrDefault meta.title (style ++ " Artifact")), description := some (jsOrDefault meta.description "AI-generated NFT") } : NFTImage → NFTImage) img).id = img.id :=
        fun _ => rfl
      refine ⟨?_, ?_, ?_⟩
      · simp only [generateItem, hor]
        rw [idsOf_updateById _ id _ hfD, idsOf_updateById _ id _ hfG]
      · intro id2 hne
        simp only [generateItem, hor]
        rw [findById_updateById_ne _ id id2 _ hfD hne,
          findById_updateById_ne _ id id2 _ hfG hne]
      · intro pr hpr
        simp only [generateItem, hor, List.mem_append] at hpr
        rcases hpr with hl | hr
        · obtain ⟨img, hmem, hid, heq⟩ := mem_traceOf st id _ pr hl
          refine Or.inl ⟨img, ?_, heq⟩
          rw [← hid]
          exact findById_of_mem st img hnd hmem
        · obtain ⟨img, _, _, heq⟩ := mem_traceOf_updateById st id _ _ pr hr
          rw [heq]
          refine Or.inr ⟨rfl, ?_⟩
          cases hs : resp.success with
          | true => exact Or.inl (by simp [hs])
          | false => exact Or.inr (by simp [hs])

theorem genLoop_trace (oracle : GenOracle) (style : String) :
    ∀ (wl : List (Nat × Nat)) (ref : Option RefImage) (st : List NFTImage),
    (idsOf st).Nodup →
    (∀ p ∈ wl, ∃ img, findById st p.2 = some img ∧ img.status = Status.pending) →
    ((wl.map fun p => p.2).Nodup) →
    ∀ pr ∈ (genLoop oracle style wl ref st).2.1,
      (pr.1 = Status.pending ∧ pr.2 = Status.generating) ∨
      (pr.1 = Status.generating ∧
        (pr.2 = Status.completed ∨ pr.2 = Status.failed)) := by
  intro wl
  induction wl with
  | nil =>
      intro ref st hnd hpend hwn pr hpr
      exact absurd hpr (List.not_mem_nil pr)
  | cons p rest ih =>
      intro ref st hnd hpend hwn pr hpr
      obtain ⟨i, id⟩ := p
      obtain ⟨G1, G2, G3⟩ := generateItem_spec oracle i id style ref st hnd
      simp only [genLoop, List.mem_append] at hpr
      rcases hpr with hl | hr
      · rcases G3 pr hl with ⟨img, hfind, heq⟩ | hgen
        · obtain ⟨img0, hfind0, hpend0⟩ := hpend (i, id) (List.mem_cons_self _ _)
          have himg : img = img0 := by
            rw [hfind] at hfind0
            exact Option.some.inj hfind0
          rw [heq]
          exact Or.inl ⟨by rw [himg]; exact hpend0, rfl⟩
        · exact Or.inr hgen
      · have hnd1 : (idsOf (generateItem oracle i id style ref st).1).Nodup := by
          rw [G1]
          exact hnd
        have hwn2 : ((rest.map fun p => p.2).Nodup) := by
          rw [List.map_cons] at hwn
          exact (List.nodup_cons.mp hwn).2
        have hnotin : id ∉ rest.map fun p => p.2 := by
          rw [List.map_cons] at hwn
          exact (List.nodup_cons.mp hwn).1
        have hpend2 : ∀ q ∈ rest, ∃ img,
            findById (generateItem oracle i id style ref st).1 q.2 = some img ∧
              img.status = Status.pending := by
          intro q hq
          obtain ⟨img, hfind, hp⟩ := hpend q (List.mem_cons_of_mem _ hq)
          have hne : q.2 ≠ id := by
            intro he
            exact hnotin (he ▸ List.mem_map_of_mem _ hq)
          refine ⟨img, ?_, hp⟩
          rw [G2 q.2 hne]
          exact hfind
        exact ih _ (generateItem oracle i id style ref st).1 hnd1 hpend2 hwn2 pr hr

/-- C8 counterexample: the `handleMintSingle` catch path performs the
backward transition `minting → completed` when the mint transaction fails,
which the claimed forward-only relation (with the sole exception
`failed → completed`) forbids. -/
theorem backward_transition_counterexample :
    (Status.minting, Status.completed) ∈ (handleMintSingle
      (fun _ => ⟨"0xIMG", true, none, none, none, none⟩)
      (fun _ => ⟨"0xMETA", true, none, none, none, none⟩)
      (fun _ => .error "revert") "1K" 0 [sampleNFT 0 "u0"]).2 ∧
    allowedClaim Status.minting Status.completed = false := by
  exact ⟨by decide, by decide⟩

theorem allowedAmended_failed : ∀ a : Status, allowedAmended a Status.failed = true := by
  intro a
  cases a <;> decide

/-- C8 (amended): every status transition performed by the batch generate,
batch mint and single mint operations lies in the amended relation
`allowedAmended`: forward along
pending, generating, completed, uploading, minting, minted; into `failed`;
the retry transition failed to completed; or the single-mint catch
reversion of an `uploading` or `minting` item back to `completed`.  The
claimed relation omits that last reversion, which the single-mint error
path does perform. -/
theorem status_transitions_amended (oracle : GenOracle) (o : MintOracles)
    (chainOne : MintInput → Except String (String × List ChainLog))
    (uploadedImage prompt style resolution : String) (count baseId nftId : Nat)
    (st : List NFTImage) (hnd : (idsOf st).Nodup) :
    (∀ pr ∈ (handleGenerate oracle uploadedImage count prompt style baseId).2.1,
        allowedAmended pr.1 pr.2 = true) ∧
    (∀ pr ∈ (handleMint o resolution st).2.1,
        allowedAmended pr.1 pr.2 = true) ∧
    (∀ pr ∈ (handleMintSingle o.imgUpload o.metaUpload chainOne resolution nftId st).2,
        allowedAmended pr.1 pr.2 = true) := by
  refine ⟨?_, ?_, ?_⟩
  · intro pr hpr
    by_cases hemp : uploadedImage = ""
    · simp only [handleGenerate] at hpr
      rw [if_pos hemp] at hpr
      exact absurd hpr (List.not_mem_nil pr)
    · simp only [handleGenerate] at hpr
      rw [if_neg hemp] at hpr
      have hids : idsOf ((List.range count).map fun i =>
          mkPlaceholder (baseId + i) (prompt ++ " - variation " ++ toString (i + 1)) style) =
          (List.range count).map fun i => baseId + i := by
        simp only [idsOf, List.map_map]
        rfl
      have hndN : (idsOf ((List.range count).map fun i =>
          mkPlaceholder (baseId + i) (prompt ++ " - variation " ++ toString (i + 1)) style)).Nodup := by
        rw [hids]
        exact List.Nodup.map (fun a b h => Nat.add_left_cancel h) (List.nodup_range count)
      have hpend : ∀ p ∈ (List.range count).map fun i => (i, baseId + i),
          ∃ img, findById ((List.range count).map fun i =>
            mkPlaceholder (baseId + i) (prompt ++ " - variation " ++ toString (i + 1)) style) p.2 =
              some img ∧ img.status = Status.pending := by
        intro p hp
        obtain ⟨i, hi, rfl⟩ := List.mem_map.mp hp
        refine ⟨mkPlaceholder (baseId + i)
          (prompt ++ " - variation " ++ toString (i + 1)) style, ?_, rfl⟩
        have hmem : mkPlaceholder (baseId + i)
            (prompt ++ " - variation " ++ toString (i + 1)) style ∈
            (List.range count).map fun i =>
              mkPlaceholder (baseId + i) (prompt ++ " - variation " ++ toString (i + 1)) style :=
          List.mem_map_of_mem _ hi
        exact findById_of_mem _ _ hndN hmem
      have hwn : (((List.range count).map fun i => (i, baseId + i)).map fun p => p.2).Nodup := by
        rw [List.map_map]
        exact List.Nodup.map (fun a b h => Nat.add_left_cancel h) (List.nodup_range count)
      rcases genLoop_trace oracle style ((List.range count).map fun i => (i, baseId + i))
          (parseDataUri uploadedImage)
          ((List.range count).map fun i =>
            mkPlaceholder (baseId + i) (prompt ++ " - variation " ++ toString (i + 1)) style)
          hndN hpend hwn pr hpr with ⟨h1, h2⟩ | ⟨h1, h2 | h2⟩
      · rw [h1, h2]
        decide
      · rw [h1, h2]
        decide
      · rw [h1, h2]
        decide
  · intro pr hpr
    by_cases hemp : st.filter (fun img => img.status = Status.completed) = []
    · simp only [handleMint] at hpr
      rw [if_pos hemp] at hpr
      exact absurd hpr (List.not_mem_nil pr)
    · simp only [handleMint] at hpr
      rw [if_neg hemp] at hpr
      have hndcN : (((st.filter fun img => img.status = Status.completed).map
          fun nft => nft.id).Nodup) :=
        List.Nodup.sublist (List.Sublist.map _ (List.filter_sublist st)) hnd
      have hfl1 : (chunksOf 5 (st.filter fun img => img.status = Status.completed)).flatten =
          st.filter fun img => img.status = Status.completed := chunksOf_flatten 4 _
      obtain ⟨B1, B2, B3, B4, B5⟩ := step1_spec o.imgUpload
        (chunksOf 5 (st.filter fun img => img.status = Status.completed)) st hnd
        (by rw [hfl1]; exact hndcN)
      have hnd1 : (idsOf (step1 o.imgUpload
          (chunksOf 5 (st.filter fun img => img.status = Status.completed)) st).1).Nodup := by
        rw [B3]
        exact hnd
      have hsub1 : ((((step1 o.imgUpload
          (chunksOf 5 (st.filter fun img => img.status = Status.completed)) st).2.2).map
            fun r => r.1.id).Sublist
          ((st.filter fun img => img.status = Status.completed).map fun nft => nft.id)) := by
        rw [B4, hfl1]
        exact filterMap_if_map_sublist
          (st.filter fun img => img.status = Status.completed)
          (fun nft => (o.imgUpload nft.url).success = true ∧ (o.imgUpload nft.url).hash ≠ "")
          (fun nft => (nft, (o.imgUpload nft.url).hash))
          (fun r : NFTImage × String => r.1.id) (fun nft => nft.id) (fun a => rfl)
      have hnds1acc : (((step1 o.imgUpload
          (chunksOf 5 (st.filter fun img => img.status = Status.completed)) st).2.2).map
            fun r => r.1.id).Nodup :=
        List.Nodup.sublist hsub1 hndcN
      have hfl2 : (chunksOf 5 (step1 o.imgUpload
          (chunksOf 5 (st.filter fun img => img.status = Status.completed)) st).2.2).flatten =
          (step1 o.imgUpload
            (chunksOf 5 (st.filter fun img => img.status = Status.completed)) st).2.2 :=
        chunksOf_flatten 4 _
      obtain ⟨C1, C2, C3, C4, C5⟩ := step2_spec o.metaUpload resolution
        (chunksOf 5 (step1 o.imgUpload
          (chunksOf 5 (st.filter fun img => img.status = Status.completed)) st).2.2)
        (step1 o.imgUpload
          (chunksOf 5 (st.filter fun img => img.status = Status.completed)) st).1
        hnd1 (by rw [hfl2]; exact hnds1acc)
      have hnd2 : (idsOf (step2 o.metaUpload resolution
          (chunksOf 5 (step1 o.imgUpload
            (chunksOf 5 (st.filter fun img => img.status = Status.completed)) st).2.2)
          (step1 o.imgUpload
            (chunksOf 5 (st.filter fun img => img.status = Status.completed)) st).1).1).Nodup := by
        rw [C3]
        exact hnd1
      have hsub2 : ((((step2 o.metaUpload resolution
          (chunksOf 5 (step1 o.imgUpload
            (chunksOf 5 (st.filter fun img => img.status = Status.completed)) st).2.2)
          (step1 o.imgUpload
            (chunksOf 5 (st.filter fun img => img.status = Status.completed)) st).1).2.2).map
              fun e => e.nft.id).Sublist
          (((step1 o.imgUpload
            (chunksOf 5 (st.filter fun img => img.status = Status.completed)) st).2.2).map
              fun r => r.1.id)) := by
        rw [C4, hfl2]
        exact filterMap_if_map_sublist
          (step1 o.imgUpload
            (chunksOf 5 (st.filter fun img => img.status = Status.completed)) st).2.2
          (fun e => (o.metaUpload (metaFor resolution e)).success = true ∧
            (o.metaUpload (metaFor resolution e)).hash ≠ "")
          (fun e => (⟨e.1, e.2, (o.metaUpload (metaFor resolution e)).hash⟩ : MetaEntry))
          (fun e : MetaEntry => e.nft.id) (fun e : NFTImage × String => e.1.id)
          (fun a => rfl)
      have hnds2acc : (((step2 o.metaUpload resolution
          (chunksOf 5 (step1 o.imgUpload
            (chunksOf 5 (st.filter fun img => img.status = Status.completed)) st).2.2)
          (step1 o.imgUpload
            (chunksOf 5 (st.filter fun img => img.status = Status.completed)) st).1).2.2).map
              fun e => e.nft.id).Nodup :=
        List.Nodup.sublist hsub2 hnds1acc
      have hfl3 : (chunksOf 5 (step2 o.metaUpload resolution
          (chunksOf 5 (step1 o.imgUpload
            (chunksOf 5 (st.filter fun img => img.status = Status.completed)) st).2.2)
          (step1 o.imgUpload
            (chunksOf 5 (st.filter fun img => img.status = Status.completed)) st).1).2.2).flatten =
          (step2 o.metaUpload resolution
            (chunksOf 5 (step1 o.imgUpload
              (chunksOf 5 (st.filter fun img => img.status = Status.completed)) st).2.2)
            (step1 o.imgUpload
              (chunksOf 5 (st.filter fun img => img.status = Status.completed)) st).1).2.2 :=
        chunksOf_flatten 4 _
      rcases List.mem_append.mp hpr with h12 | h3
      · rcases List.mem_append.mp h12 with h1 | h2
        · rcases B5 pr h1 with hfail | ⟨nft2, hmem2, img, hfind, heq⟩
          · rw [hfail]
            exact allowedAmended_failed pr.1
          · rw [hfl1] at hmem2
            have hmemst : nft2 ∈ st := (List.mem_filter.mp hmem2).1
            have hcomp : nft2.status = Status.completed :=
              of_decide_eq_true (List.mem_filter.mp hmem2).2
            have hfind2 : findById st nft2.id = some nft2 :=
              findById_of_mem st nft2 hnd hmemst
            have himg : img = nft2 := Option.some.inj (hfind.symm.trans hfind2)
            rw [heq, himg, hcomp]
            exact (by decide : allowedAmended Status.completed Status.uploading = true)
        · rcases C5 pr h2 with hfail | ⟨e2, hmem2, img, hfind, heq⟩
          · rw [hfail]
            exact allowedAmended_failed pr.1
          · rw [hfl2, B4] at hmem2
            obtain ⟨nft, hmemN, hifeq⟩ := List.mem_filterMap.mp hmem2
            by_cases hcnd : (o.imgUpload nft.url).success = true ∧
                (o.imgUpload nft.url).hash ≠ ""
            · rw [if_pos hcnd] at hifeq
              have he2 : e2 = (nft, (o.imgUpload nft.url).hash) :=
                (Option.some.inj hifeq).symm
              have hok := (B1 nft hmemN).1 hcnd
              have hmemcN : nft ∈ st.filter fun img => img.status = Status.completed :=
                hfl1 ▸ hmemN
              have hmemst : nft ∈ st := (List.mem_filter.mp hmemcN).1
              have hfindst : findById st nft.id = some nft :=
                findById_of_mem st nft hnd hmemst
              rw [hfindst] at hok
              simp only [Option.map_some'] at hok
              have hfind2 : findById (step1 o.imgUpload
                  (chunksOf 5 (st.filter fun img => img.status = Status.completed)) st).1
                  nft.id = some img := by
                have he21 : e2.1 = nft := by
                  rw [he2]
                rw [← he21]
                exact hfind
              have himg := Option.some.inj (hfind2.symm.trans hok)
              rw [heq, himg]
              exact (by decide : allowedAmended Status.uploading Status.minting = true)
            · rw [if_neg hcnd] at hifeq
              exact Option.noConfusion hifeq
      · rcases mintPhaseGo_trace o.chain
            (chunksOf 5 (step2 o.metaUpload resolution
              (chunksOf 5 (step1 o.imgUpload
                (chunksOf 5 (st.filter fun img => img.status = Status.completed)) st).2.2)
              (step1 o.imgUpload
                (chunksOf 5 (st.filter fun img => img.status = Status.completed)) st).1).2.2)
            (step2 o.metaUpload resolution
              (chunksOf 5 (step1 o.imgUpload
                (chunksOf 5 (st.filter fun img => img.status = Status.completed)) st).2.2)
              (step1 o.imgUpload
                (chunksOf 5 (st.filter fun img => img.status = Status.completed)) st).1).1
            hnd2 (by rw [hfl3]; exact hnds2acc) pr h3 with hfail |
            ⟨e, hmem3, img, hfind, heq⟩
        · rw [hfail]
          exact allowedAmended_failed pr.1
        · rw [hfl3, C4] at hmem3
          obtain ⟨e2, hmem2, hifeq⟩ := List.mem_filterMap.mp hmem3
          by_cases hcnd2 : (o.metaUpload (metaFor resolution e2)).success = true ∧
              (o.metaUpload (metaFor resolution e2)).hash ≠ ""
          · rw [if_pos hcnd2] at hifeq
            have he : e = ⟨e2.1, e2.2, (o.metaUpload (metaFor resolution e2)).hash⟩ :=
              (Option.some.inj hifeq).symm
            have hok2 := (C1 e2 hmem2).1 hcnd2
            rw [hfl2, B4] at hmem2
            obtain ⟨nft, hmemN, hifeq2⟩ := List.mem_filterMap.mp hmem2
            by_cases hcnd1 : (o.imgUpload nft.url).success = true ∧
                (o.imgUpload nft.url).hash ≠ ""
            · rw [if_pos hcnd1] at hifeq2
              have he2 : e2 = (nft, (o.imgUpload nft.url).hash) :=
                (Option.some.inj hifeq2).symm
              have hok1 := (B1 nft hmemN).1 hcnd1
              have hmemcN : nft ∈ st.filter fun img => img.status = Status.completed :=
                hfl1 ▸ hmemN
              have hmemst : nft ∈ st := (List.mem_filter.mp hmemcN).1
              have hfindst : findById st nft.id = some nft :=
                findById_of_mem st nft hnd hmemst
              rw [hfindst] at hok1
              simp only [Option.map_some'] at hok1
              have he21 : e2.1 = nft := by
                rw [he2]
              rw [he21, hok1] at hok2
              simp only [Option.map_some'] at hok2
              have hfind2 : findById (step2 o.metaUpload resolution
                  (chunksOf 5 (step1 o.imgUpload
                    (chunksOf 5 (st.filter fun img => img.status = Status.completed)) st).2.2)
                  (step1 o.imgUpload
                    (chunksOf 5 (st.filter fun img => img.status = Status.completed)) st).1).1
                  nft.id = some img := by
                have hent : e.nft = nft := by
                  rw [he, he21]
                rw [← hent]
                exact hfind
              have himg := Option.some.inj (hfind2.symm.trans hok2)
              rw [heq, himg]
              exact (by decide : allowedAmended Status.minting Status.minted = true)
            · rw [if_neg hcnd1] at hifeq2
              exact Option.noConfusion hifeq2
          · rw [if_neg hcnd2] at hifeq
            exact Option.noConfusion hifeq
  · intro pr hpr
    cases hfind : findById st nftId with
    | none =>
        simp only [handleMintSingle, hfind] at hpr
        exact absurd hpr (List.not_mem_nil pr)
    | some nft =>
        by_cases hstat : nft.status ≠ Status.completed
        · simp only [handleMintSingle, hfind] at hpr
          rw [if_pos hstat] at hpr
          exact absurd hpr (List.not_mem_nil pr)
        · have hcomp : nft.status = Status.completed := not_not.mp hstat
          simp only [handleMintSingle, hfind] at hpr
          rw [if_neg hstat] at hpr
          have htr1 : ∀ pr2 ∈ traceOf st nftId
              (fun img => { img with status := Status.uploading }),
              allowedAmended pr2.1 pr2.2 = true := by
            intro pr2 hl
            obtain ⟨img, hmem, hid, heq⟩ := mem_traceOf st nftId _ pr2 hl
            have hf2 := findById_of_mem st img hnd hmem
            rw [hid] at hf2
            have himg : nft = img := Option.some.inj (hfind.symm.trans hf2)
            rw [heq, ← himg, hcomp]
            exact (by decide : allowedAmended Status.completed Status.uploading = true)
          by_cases h1 : (o.imgUpload nft.url).success = true ∧
              (o.imgUpload nft.url).hash ≠ ""
          · rw [if_neg (not_not_intro h1)] at hpr
            by_cases h2 : (o.metaUpload (createMetadata (jsOrDefault nft.title "AI NFT")
                (jsOrDefault nft.description "AI-generated NFT on 0G Chain")
                (o.imgUpload nft.url).hash nft.style nft.prompt resolution)).success = true ∧
                (o.metaUpload (createMetadata (jsOrDefault nft.title "AI NFT")
                  (jsOrDefault nft.description "AI-generated NFT on 0G Chain")
                  (o.imgUpload nft.url).hash nft.style nft.prompt resolution)).hash ≠ ""
            · rw [if_neg (not_not_intro h2)] at hpr
              cases hmint : mintNFT chainOne
                  ⟨(o.metaUpload (createMetadata (jsOrDefault nft.title "AI NFT")
                    (jsOrDefault nft.description "AI-generated NFT on 0G Chain")
                    (o.imgUpload nft.url).hash nft.style nft.prompt resolution)).hash,
                    (o.imgUpload nft.url).hash, nft.style, nft.prompt⟩ with
              | ok pairr =>
                  obtain ⟨tx, tid⟩ := pairr
                  simp only [hmint] at hpr
                  rcases List.mem_append.mp hpr with h12 | h3
                  · rcases List.mem_append.mp h12 with hl | hm
                    · exact htr1 pr hl
                    · obtain ⟨img, _, _, heq⟩ :=
                        mem_traceOf_updateById st nftId _ _ pr hm
                      rw [heq]
                      exact (by decide : allowedAmended Status.uploading Status.minting = true)
                  · obtain ⟨img, _, _, heq⟩ :=
                      mem_traceOf_updateById (updateById st nftId
                        (fun img => { img with status := Status.uploading })) nftId _ _ pr h3
                    rw [heq]
                    exact (by decide : allowedAmended Status.minting Status.minted = true)
              | error e =>
                  simp only [hmint] at hpr
                  rcases List.mem_append.mp hpr with h12 | h3
                  · rcases List.mem_append.mp h12 with hl | hm
                    · exact htr1 pr hl
                    · obtain ⟨img, _, _, heq⟩ :=
                        mem_traceOf_updateById st nftId _ _ pr hm
                      rw [heq]
                      exact (by decide : allowedAmended Status.uploading Status.minting = true)
                  · obtain ⟨img, _, _, heq⟩ :=
                      mem_traceOf_updateById (updateById st nftId
                        (fun img => { img with status := Status.uploading })) nftId _ _ pr h3
                    rw [heq]
                    exact (by decide : allowedAmended Status.minting Status.completed = true)
            · rw [if_pos h2] at hpr
              rcases List.mem_append.mp hpr with hl | hm
              · exact htr1 pr hl
              · obtain ⟨img, _, _, heq⟩ := mem_traceOf_updateById st nftId _ _ pr hm
                rw [heq]
                exact (by decide : allowedAmended Status.uploading Status.completed = true)
          · rw [if_pos h1] at hpr
            rcases List.mem_append.mp hpr with hl | hm
            · exact htr1 pr hl
            · obtain ⟨img, _, _, heq⟩ := mem_traceOf_updateById st nftId _ _ pr hm
              rw [heq]
              exact (by decide : allowedAmended Status.uploading Status.completed = true)

/-- Concrete run of `status_transitions_amended` on a two-item state with a
duplicate-free id list. -/
theorem status_transitions_amended_witness :
    (idsOf [sampleNFT 0 "u0", sampleNFT 1 "u1"]).Nodup ∧
    ((∀ pr ∈ (handleGenerate genOracleC "data:image/png;base64,AAA" 2 "p" "s" 10).2.1,
        allowedAmended pr.1 pr.2 = true) ∧
      (∀ pr ∈ (handleMint mintOraclesW "1K" [sampleNFT 0 "u0", sampleNFT 1 "u1"]).2.1,
        allowedAmended pr.1 pr.2 = true) ∧
      (∀ pr ∈ (handleMintSingle mintOraclesW.imgUpload mintOraclesW.metaUpload
          (fun _ => Except.error "revert") "1K" 0
          [sampleNFT 0 "u0", sampleNFT 1 "u1"]).2,
        allowedAmended pr.1 pr.2 = true)) :=
  ⟨by decide, status_transitions_amended genOracleC mintOraclesW
    (fun _ => Except.error "revert") "data:image/png;base64,AAA" "p" "s" "1K"
    2 10 0 [sampleNFT 0 "u0", sampleNFT 1 "u1"] (by decide)⟩
